import Mathlib

/-!
Verification of the literanger random-forest core (C++ sources under `src/`)
against its natural-language specification.

The C++ code is shallowly embedded: each C++ function used by a claim is
translated into an executable Lean definition over `Nat` / `Int` / `ℚ` and
lists.  Machine `size_t` values are modelled as `Nat`, C++ `double` data
values as `ℚ` (or as an arbitrary linear order where only comparisons are
used), `std::vector` as `List`, and `std::unordered_map<size_t,size_t>` as an
association list with distinct keys.  Functions that throw C++ exceptions
return `Except ErrKind _`; an out-of-bounds `operator[]` read (undefined
behaviour in C++) is modelled by `List.getD` with an explicit default, and is
noted where it matters.  Randomness (PRNG draws, shuffles) is passed in as an
explicit argument; theorems quantify over it where the property is
distribution-free.
-/

namespace Literanger

/-- Error kinds of the C++ exceptions thrown by the core:
`std::invalid_argument`, `std::domain_error`, `std::runtime_error`; and
`outOfRange` for an out-of-bounds container access (undefined behaviour in
C++, modelled as a failure); `fuelExhausted` is an artefact of embedding the
unbounded C++ `for` loop in `TreeBase::grow` with explicit fuel. -/
inductive ErrKind where
  | invalidArgument
  | domainError
  | runtimeError
  | outOfRange
  | fuelExhausted
deriving DecidableEq, Repr

/-- Enumerated rules for selecting a predictor to split on
(`enum SplitRule` in `enum_types.h`). -/
inductive SplitRule where
  | logrank
  | maxstat
  | extratrees
  | beta
  | hellinger
deriving DecidableEq, Repr

/-- Enumerated tree types (`enum TreeType` in `enum_types.h`). -/
inductive TreeType where
  | classification
  | regression
deriving DecidableEq, Repr

/-- Generic parameters for a tree (struct `TrainingParameters` in
`TrainingParameters.h`); `shared_ptr` vector members are embedded as plain
lists, `double` as `ℚ`. -/
structure TrainingParameters where
  replace : Bool
  sample_fraction : List ℚ
  n_try : Nat
  draw_always_predictor_keys : List Nat
  draw_predictor_weights : List ℚ
  response_weights : List ℚ
  split_rule : SplitRule
  min_metric_decrease : ℚ
  max_depth : Nat
  min_split_n_sample : Nat
  min_leaf_n_sample : Nat
  n_random_split : Nat
  min_prop : ℚ

/-- Increment slot `i` of a counter vector, as `++inbag_counts[draw]` does on
a `count_vector`. -/
def bump (counts : List Nat) (i : Nat) : List Nat :=
  counts.set i (counts.getD i 0 + 1)

/-- Truncating product `(size_t)(n * f)` for a non-negative rational `f`,
written over the numerator and denominator so that the kernel can evaluate
it (it is floor of `n * f` when `f ≥ 0`). -/
def rat_mul_floor (n : Nat) (f : ℚ) : Nat :=
  n * f.num.toNat / f.den

/-- Swap two positions of a list, as `std::swap(sample_keys[i], sample_keys[j])`. -/
def list_swap (l : List Nat) (i j : Nat) : List Nat :=
  let a := l.getD i 0
  let b := l.getD j 0
  (l.set i b).set j a

section DataSection

variable {α : Type} [LinearOrder α]

/-- Removal of consecutive duplicates, as
`erase(std::unique(begin, end), end)` does after `std::sort`.  (`std::unique`
keeps the first element of each run; since the elements of a run are equal,
keeping the last instead produces the same list, which lets the definition be
structurally recursive.) -/
def unique_consecutive : List α → List α
  | [] => []
  | [a] => [a]
  | a :: b :: rest =>
      if a = b then unique_consecutive (b :: rest)
      else a :: unique_consecutive (b :: rest)

/-- Embedding of `Data::get_all_values` (`Data.defn.h` lines 44-62).  The
abstract virtual `Data::get_x` (with its `permute` flag already applied, see
`Data::as_row_offset`) is passed as the function `get_x`; data values form an
arbitrary linear order standing for the C++ `double` ordering.  Throws
`std::invalid_argument` when `start > end`; otherwise sorts the slice's
values and removes duplicates (`std::sort` + `std::unique`/`erase`;
`List.insertionSort` produces the same sorted list). -/
def get_all_values (get_x : Nat → Nat → α) (sample_keys : List Nat)
    (predictor_key start stop : Nat) : Except ErrKind (List α) :=
  if start > stop then .error .invalidArgument
  else
    let all_values := (List.range (stop - start)).map
      (fun j => get_x (sample_keys.getD (start + j) 0) predictor_key)
    .ok (unique_consecutive (List.insertionSort (· ≤ ·) all_values))

/-- Embedding of `Data::get_minmax_values` (`Data.defn.h` lines 65-83).
Throws `std::invalid_argument` when `start > end`; otherwise initialises
min and max from `sample_keys[start]` when the container is non-empty and
folds `std::min`/`std::max` over the slice.  The default value stands for
the indeterminate initial contents of the C++ output variables. -/
def get_minmax_values (get_x : Nat → Nat → α) (dflt : α) (sample_keys : List Nat)
    (predictor_key start stop : Nat) : Except ErrKind (α × α) :=
  if start > stop then .error .invalidArgument
  else
    let init := if sample_keys.length > 0
      then get_x (sample_keys.getD start 0) predictor_key else dflt
    let fold := (List.range (stop - start)).foldl
      (fun mm j =>
        let value := get_x (sample_keys.getD (start + j) 0) predictor_key
        (min value mm.1, max value mm.2))
      (init, init)
    .ok fold

end DataSection

/-- Number of entries of an association list holding key `k`; this is
`std::unordered_map::count` once keys are known to be distinct. -/
def map_count (m : List (Nat × Nat)) (k : Nat) : Nat :=
  (m.filter (fun p => p.1 == k)).length

/-- Value stored under key `k`, if any (`std::unordered_map` lookup). -/
def map_lookup (m : List (Nat × Nat)) (k : Nat) : Option Nat :=
  (m.find? (fun p => p.1 == k)).map Prod.snd

/-- Embedding of `TreeBase::transform_split_keys` (`TreeBase.defn.h` lines
177-193).  Throws `std::invalid_argument` when the map size differs from
`n_predictor`; then for each `j < n_predictor` throws `std::domain_error`
when `j` is absent or its image is out of range; otherwise rewrites each
split key through the map.  `key_map[key]` uses `operator[]`, which
value-initialises a missing key to `0`; this is the `getD _ 0`. -/
def transform_split_keys (n_predictor : Nat) (key_map : List (Nat × Nat))
    (split_keys : List Nat) : Except ErrKind (List Nat) :=
  if key_map.length ≠ n_predictor then .error .invalidArgument
  else if (List.range n_predictor).any
      (fun j => map_count key_map j ≠ 1 ∨ (map_lookup key_map j).getD 0 ≥ n_predictor)
    then .error .domainError
  else .ok (split_keys.map (fun key => (map_lookup key_map key).getD 0))

/-- Embedding of `Data::get_response_values` (`Data.defn.h` lines 179-196):
the unique response values of the y-column in order of first appearance. -/
def response_values_of (y : List ℚ) : List ℚ :=
  y.foldl (fun acc value => if value ∈ acc then acc else acc ++ [value]) []

/-- Embedding of the guard part of `ForestClassification::new_growth`
(`ForestClassification.defn.h` lines 104-131): if any tree's parameters use
the Hellinger split rule and the number of observed response values is not
two, training fails with `std::invalid_argument`.  The remainder of the
function (copying response values, building the response index and optional
predictor index) has no observable failure for consistent inputs and is not
needed by any claim. -/
def forest_classification_new_growth (forest_parameters : List TrainingParameters)
    (response_values_data : List ℚ) : Except ErrKind Unit :=
  let any_hellinger := forest_parameters.any
    (fun parameters => parameters.split_rule = SplitRule.hellinger)
  if any_hellinger ∧ response_values_data.length ≠ 2 then .error .invalidArgument
  else .ok ()

/-- Tally loop of `ForestClassification::compute_oob_error`
(`ForestClassification.defn.h` lines 150-175): over rows paired with their
observed response key, skip rows without out-of-bag predictions, otherwise
count one prediction and one misclassification when the most frequent
predicted key differs from the observed one.  `most_frequent_value`
(declared in the absent `utility.h`) is abstracted by `pick`, the key chosen
from the row's multiset of predicted keys. -/
def oob_tally (pick : List Nat → Nat) : List (List Nat × Nat) → Nat × Nat
  | [] => (0, 0)
  | (predictions, observed) :: rest =>
      let t := oob_tally pick rest
      if predictions.isEmpty then t
      else (t.1 + (if pick predictions ≠ observed then 1 else 0), t.2 + 1)

/-- Embedding of `ForestClassification::compute_oob_error`: the number of
misclassified rows divided by the number of rows with at least one
out-of-bag prediction (a `double` division in C++; on an empty denominator
C++ yields NaN while `ℚ` yields `0`, so theorems assume at least one
prediction). -/
def compute_oob_error (pick : List Nat → Nat) (oob_predictions : List (List Nat))
    (response_index : List Nat) : ℚ :=
  let t := oob_tally pick (oob_predictions.zip response_index)
  (t.1 : ℚ) / (t.2 : ℚ)

/-- Validity of a tie-breaking choice for `most_frequent_value` (declared in
`utility.h`, which is not under `src/`): the chosen key occurs in the
multiset and its multiplicity is maximal.  Randomised tie-breaking always
satisfies this. -/
def most_frequent_ok (pick : List Nat → Nat) (rows : List (List Nat)) : Prop :=
  ∀ l ∈ rows, l ≠ [] →
    pick l ∈ l ∧ ∀ v ∈ l, l.count v ≤ l.count (pick l)

/-- Mean of a list of rationals (used by the regression OOB model). -/
def list_mean (l : List ℚ) : ℚ := l.sum / (l.length : ℚ)

/-- Modelled from the spec: `ForestRegression::compute_oob_error` is in
`ForestRegression.defn.h`, which is not under `src/`.  Per the spec,
"regression OOB error = mean squared error over rows with ≥ 1 OOB
prediction", where each row's prediction is aggregated from its out-of-bag
predicted values. -/
def regression_oob_error (oob_values : List (List ℚ)) (y : List ℚ) : ℚ :=
  let rows := (oob_values.zip y).filter (fun r => !r.1.isEmpty)
  (rows.map (fun r => (list_mean r.1 - r.2) ^ 2)).sum / (rows.length : ℚ)

/-! Serialization envelope (`cpp11_io.cpp`).  cereal (an external library)
faithfully round-trips every archived value, so the archive is modelled as a
record of the values written by `cpp11_serialize`.  The model keeps the
polymorphic forest payload (`ForestBase::serialize`, `TreeBase::serialize`,
`TreeClassification::serialize` field lists) as nested records. -/

/-- Fields archived for one (classification) tree: `TreeBase::serialize`
(`TreeBase.defn.h` lines 203-207) followed by
`TreeClassification::serialize` (`TreeClassification.defn.h` lines 152-156). -/
structure TreePayload where
  save_memory : Bool
  n_predictor : Nat
  is_ordered : List Bool
  split_keys : List Nat
  split_values : List ℚ
  child_node_keys : List Nat × List Nat
  response_weights : List ℚ
  leaf_keys : List (Nat × List Nat)
  leaf_most_frequent : List (Nat × Nat)
deriving DecidableEq

/-- Fields archived for the forest object: `ForestBase::serialize`
(`ForestBase.defn.h` lines 97-100) plus classification's `response_values`
(`ForestClassification::serialize`). -/
structure ForestPayload where
  save_memory : Bool
  n_predictor : Nat
  is_ordered : List Bool
  trees : List TreePayload
  response_values : List ℚ
deriving DecidableEq

/-- The R-side model object whose named entries `cpp11_serialize` reads
(`cpp11_io.cpp` lines 57-129); `min_metric_decrease` and `oob_error` are R
numerics (doubles, here `ℚ`). -/
structure RandomForestObject where
  tree_type : String
  predictor_names : List String
  names_of_unordered : List String
  n_tree : Nat
  n_try : Nat
  split_rule : String
  max_depth : Nat
  min_metric_decrease : ℚ
  min_split_n_sample : Nat
  min_leaf_n_sample : Nat
  seed : Nat
  oob_error : ℚ
  n_random_split : Nat
  response_values : List ℚ
  forest : ForestPayload
deriving DecidableEq

/-- The values written to the binary archive by `cpp11_serialize`.  Note the
type of `min_metric_decrease`: the C++ reads it with
`cpp11::as_cpp<size_t>(object["min_metric_decrease"])` (`cpp11_io.cpp` lines
82-84), so a `size_t` — not the `double` the core stores — is archived. -/
structure SerializedEnvelope where
  tree_type : String
  predictor_names : List String
  names_of_unordered : List String
  n_tree : Nat
  n_try : Nat
  split_rule : String
  max_depth : Nat
  min_metric_decrease : Nat
  min_split_n_sample : Nat
  min_leaf_n_sample : Nat
  seed : Nat
  oob_error : ℚ
  n_random_split : Nat
  response_values : List ℚ
  forest : ForestPayload
deriving DecidableEq

/-- Embedding of `cpp11_serialize` (`cpp11_io.cpp` lines 57-129).  `conv`
stands for the value produced by `cpp11::as_cpp<size_t>` on the numeric
`min_metric_decrease` entry; its exact behaviour on a lossy conversion is
external to this repository, so the model is parameterised by it (whatever
it does, it produces a `size_t`).  `n_random_split` is archived only for the
extratrees rule (else `0`), and `response_values` only for classification
(else a null pointer, modelled as `[]`). -/
def cpp11_serialize (conv : ℚ → Nat) (x : RandomForestObject) : SerializedEnvelope where
  tree_type := x.tree_type
  predictor_names := x.predictor_names
  names_of_unordered := x.names_of_unordered
  n_tree := x.n_tree
  n_try := x.n_try
  split_rule := x.split_rule
  max_depth := x.max_depth
  min_metric_decrease := conv x.min_metric_decrease
  min_split_n_sample := x.min_split_n_sample
  min_leaf_n_sample := x.min_leaf_n_sample
  seed := x.seed
  oob_error := x.oob_error
  n_random_split := if x.split_rule = "extratrees" then x.n_random_split else 0
  response_values := if x.tree_type = "classification" then x.response_values else []
  forest := x.forest

/-- Embedding of `cpp11_deserialize` (`cpp11_io.cpp` lines 133-203): reads
the archived values back into the result list; `min_metric_decrease` is read
as a `size_t` and stored as such. -/
def cpp11_deserialize (a : SerializedEnvelope) : RandomForestObject where
  tree_type := a.tree_type
  predictor_names := a.predictor_names
  names_of_unordered := a.names_of_unordered
  n_tree := a.n_tree
  n_try := a.n_try
  split_rule := a.split_rule
  max_depth := a.max_depth
  min_metric_decrease := (a.min_metric_decrease : ℚ)
  min_split_n_sample := a.min_split_n_sample
  min_leaf_n_sample := a.min_leaf_n_sample
  seed := a.seed
  oob_error := a.oob_error
  n_random_split := a.n_random_split
  response_values := a.response_values
  forest := a.forest

/-- A concrete trained-forest object with the `min_metric_decrease` value the
core uses for the maxstat rule with `alpha = 0.05`
(`set_min_metric_decrease` in `cpp11_train.cpp`: `-alpha`). -/
def maxstat_forest_object : RandomForestObject where
  tree_type := "regression"
  predictor_names := ["a"]
  names_of_unordered := []
  n_tree := 1
  n_try := 1
  split_rule := "maxstat"
  max_depth := 0
  min_metric_decrease := -(1/20 : ℚ)
  min_split_n_sample := 5
  min_leaf_n_sample := 1
  seed := 1
  oob_error := 0
  n_random_split := 0
  response_values := []
  forest := ⟨false, 1, [true], [], []⟩

/-! Resampling (`TreeBase.defn.h` lines 224-341 and
`TreeClassification::resample_response_wise_impl`,
`TreeClassification.defn.h` lines 189-255).  The draw utilities live in
`utility_draw.h`, which is not under `src/`; per the spec they draw row keys
and increment `inbag_counts` once per drawn key, so the random draws /
shuffles appear as explicit arguments and the counts are reconstructed from
them. -/

/-- Embedding of `TreeBase::resample_unweighted`.  With replacement the
drawn keys are the argument `drawn` (truncated to the in-bag size) and the
out-of-bag keys are the rows with zero in-bag count; without replacement
`perm` is the shuffled row order, the first `⌊n·f⌋` entries are in-bag and
the remainder is out-of-bag. -/
def resample_unweighted (n_sample : Nat) (replace : Bool) (sample_fraction : List ℚ)
    (get_oob_keys : Bool) (drawn perm : List Nat) : List Nat × List Nat :=
  let n_sample_inbag := rat_mul_floor n_sample (sample_fraction.getD 0 0)
  if replace then
    let sample_keys := drawn.take n_sample_inbag
    let oob_keys := if get_oob_keys then
      (List.range n_sample).filter (fun j => sample_keys.count j = 0) else []
    (sample_keys, oob_keys)
  else
    let sample_keys := perm.take n_sample_inbag
    let oob_keys := if get_oob_keys then perm.drop n_sample_inbag else []
    (sample_keys, oob_keys)

/-- Embedding of `TreeBase::resample_weighted`: fails when the case-weight
vector length differs from the number of rows; the weighted draw itself
(`utility_draw.h`, not under `src/`) produces `drawn`, and out-of-bag keys
are the rows with zero in-bag count. -/
def resample_weighted (n_sample : Nat) (replace : Bool) (sample_fraction : List ℚ)
    (weights : List ℚ) (get_oob_keys : Bool) (drawn : List Nat) :
    Except ErrKind (List Nat × List Nat) :=
  if weights.length ≠ n_sample then .error .invalidArgument
  else
    let n_sample_inbag := rat_mul_floor n_sample (sample_fraction.getD 0 0)
    let sample_keys := drawn.take n_sample_inbag
    let oob_keys := if get_oob_keys then
      (List.range n_sample).filter (fun j => sample_keys.count j = 0) else []
    .ok (sample_keys, oob_keys)

/-- Per-class loop of `TreeClassification::resample_response_wise_impl`
(`TreeClassification.defn.h` lines 189-255).  `class_draws` are the
uniform-random bucket positions drawn in the replacement branch;
`class_perms` are the shuffled position orders of the no-replacement
branch.  The class in-bag count is
`n_sample * (round(cumulative end) - round(cumulative start))` with C's
`round` (for the non-negative fractions used here it equals Mathlib's
`round`).  NOTE the no-replacement branch increments `inbag_counts` for the
positions dropped from the in-bag sample (`TreeClassification.defn.h` lines
244-247), exactly as the C++ does. -/
def resample_response_wise_impl_go (buckets : List (List Nat)) (n_sample : Nat)
    (replace : Bool) (class_draws class_perms : List (List Nat)) :
    List ℚ → Nat → ℚ → List Nat × List Nat → List Nat × List Nat
  | [], _, _, acc => acc
  | f :: rest, j, start, acc =>
      let stop := start + f
      let n_inbag_j := ((n_sample : Int) * (round stop - round start)).toNat
      let bucket := buckets.getD j []
      let acc' :=
        if replace then
          let pos := (class_draws.getD j []).take n_inbag_j
          let keys := pos.map (fun p => bucket.getD p 0)
          (acc.1 ++ keys, keys.foldl bump acc.2)
        else
          let sample_j := (class_perms.getD j []).map (fun p => bucket.getD p 0)
          (acc.1 ++ sample_j.take n_inbag_j,
           (sample_j.drop n_inbag_j).foldl bump acc.2)
      resample_response_wise_impl_go buckets n_sample replace class_draws class_perms
        rest (j + 1) stop acc'

/-- Embedding of `TreeBase::resample_response_wise` (`TreeBase.defn.h` lines
310-341) with the classification implementation: run the per-class draws,
then return as out-of-bag every row whose in-bag count is zero. -/
def resample_response_wise (buckets : List (List Nat)) (n_sample : Nat)
    (replace : Bool) (sample_fraction : List ℚ) (get_oob_keys : Bool)
    (class_draws class_perms : List (List Nat)) : List Nat × List Nat :=
  let r := resample_response_wise_impl_go buckets n_sample replace class_draws
    class_perms sample_fraction 0 0 ([], List.replicate n_sample 0)
  let oob_keys := if get_oob_keys then
    (List.range n_sample).filter (fun j => r.2.getD j 0 = 0) else []
  (r.1, oob_keys)

/-! Tree growth (`TreeBase.defn.h`).  `TreeBase` is an abstract base class:
`new_growth`, `compare_response`, `push_best_split` and `add_terminal_node`
are pure virtual and are supplied by `TreeClassification` /
`TreeRegression`.  The embedding therefore takes a `TreeGrowEnv` record
bundling the data view and the virtual implementations; theorems about the
growth loop quantify over it (covering both concrete subclasses), and
counterexamples instantiate it concretely.  Data values form an arbitrary
linear order standing for `double`. -/

/-- The node split chosen by `push_best_split`: `split_value` is either an
ordered threshold or, for an unordered predictor, the `unsigned long long`
partition mask the C++ bit-casts into the `double` slot. -/
inductive SplitVal (α : Type) where
  | threshold (v : α)
  | partition_mask (mask : Nat)
deriving DecidableEq

/-- Growth-time state of a `TreeBase`: the parallel node arrays, the
growth workspace `start_pos` / `end_pos`, the partially-sorted sample-key
buffer, and (abstracting the subclass leaf payload written by
`add_terminal_node`) the list of terminal node keys in creation order. -/
structure GrowState (α : Type) where
  split_keys : List Nat
  split_values : List (SplitVal α)
  left_children : List Nat
  right_children : List Nat
  start_pos : List Nat
  end_pos : List Nat
  terminal_nodes : List Nat
  sample_keys : List Nat
deriving DecidableEq

/-- The all-empty state of a freshly constructed tree. -/
def empty_grow_state (α : Type) : GrowState α :=
  ⟨[], [], [], [], [], [], [], []⟩

/-- Data view and virtual member functions seen by `TreeBase::grow`:
`n_predictor` and `is_ordered` are the tree's immutable parameters,
`n_row` and `get_x` the data view, `level_bit` the value
`(size_t)std::floor(x - 1)` used by partition splits, `same_response` the
virtual `compare_response`, `sample_keys_by_response` the response buckets
used by response-wise resampling (classification), `new_growth_error` the
exception (if any) thrown by the virtual `new_growth`, and
`push_best_split` the virtual split search (it also absorbs
`draw_candidates`, whose random candidate set only feeds it); it returns
the split key and value it would store, or `none` when no split improves
the metric enough. -/
structure TreeGrowEnv (α : Type) where
  n_predictor : Nat
  is_ordered : List Bool
  n_row : Nat
  get_x : Nat → Nat → α
  level_bit : α → Nat
  same_response : Nat → Nat → Bool
  sample_keys_by_response : List (List Nat)
  response_wise_supported : Bool
  new_growth_error : Option ErrKind
  push_best_split : Nat → GrowState α → Option (Nat × SplitVal α)

/-- Randomness consumed by one call to `grow`: the with-replacement /
weighted draw, the unweighted shuffle, and the response-wise per-class
draws and shuffles. -/
structure GrowRandom where
  drawn : List Nat
  perm : List Nat
  class_draws : List (List Nat)
  class_perms : List (List Nat)

/-- Embedding of `TreeBase::push_back_empty_node` (`TreeBase.defn.h` lines
210-221): append a zero entry to every node array.  The subclass hook
`push_back_empty_node_impl` does nothing for both tree types. -/
def push_back_empty_node {α : Type} [Inhabited α] (st : GrowState α) : GrowState α where
  split_keys := st.split_keys ++ [0]
  split_values := st.split_values ++ [.threshold default]
  left_children := st.left_children ++ [0]
  right_children := st.right_children ++ [0]
  start_pos := st.start_pos ++ [0]
  end_pos := st.end_pos ++ [0]
  terminal_nodes := st.terminal_nodes
  sample_keys := st.sample_keys

/-- Embedding of the virtual `add_terminal_node`: both subclasses record the
leaf payload for `node_key` and leave the node arrays untouched; the model
records the node key. -/
def add_terminal_node {α : Type} (node_key : Nat) (st : GrowState α) : GrowState α :=
  { st with terminal_nodes := st.terminal_nodes ++ [node_key] }

/-- In-place partition of `sample_keys[j, hi)` from `TreeBase::split_node`
(`TreeBase.defn.h` lines 428-460): advance over keys satisfying `is_left`,
otherwise swap the key to just below `hi` and decrement `hi` (in the C++,
`hi` is `start_pos[right_key]`).  Returns the final buffer and `hi`.  The
fuel is supplied as `hi - j`, the exact number of loop iterations. -/
def partition_loop (is_left : Nat → Bool) :
    Nat → List Nat → Nat → Nat → List Nat × Nat
  | 0, sk, _, hi => (sk, hi)
  | fuel + 1, sk, j, hi =>
      if j < hi then
        if is_left (sk.getD j 0) then partition_loop is_left fuel sk (j + 1) hi
        else partition_loop is_left fuel (list_swap sk j (hi - 1)) j (hi - 1)
      else (sk, hi)

/-- The successful-split tail of `TreeBase::split_node` (`TreeBase.defn.h`
lines 407-466): store the split key and value chosen by `push_best_split`,
allocate the left then the right child as two freshly appended empty
nodes, partially sort the node's sample keys around the split (threshold
comparison for an ordered predictor, mask bit test for an unordered one),
and set the children's sample ranges. -/
def do_split {α : Type} [LinearOrder α] [Inhabited α] (env : TreeGrowEnv α)
    (node_key best_key : Nat) (best_value : SplitVal α) (st : GrowState α) :
    GrowState α :=
  let st1 := { st with
    split_keys := st.split_keys.set node_key best_key,
    split_values := st.split_values.set node_key best_value }
  let left_key := st1.split_keys.length
  let st2 := { st1 with
    left_children := st1.left_children.set node_key left_key }
  let st3 := push_back_empty_node st2
  let st4 := { st3 with
    start_pos := st3.start_pos.set left_key (st3.start_pos.getD node_key 0) }
  let right_key := st4.split_keys.length
  let st5 := { st4 with
    right_children := st4.right_children.set node_key right_key }
  let st6 := push_back_empty_node st5
  let st7 := { st6 with
    start_pos := st6.start_pos.set right_key (st6.end_pos.getD node_key 0) }
  let is_left : Nat → Bool :=
    if env.is_ordered.getD best_key true then
      fun key => match best_value with
        | .threshold v => decide (env.get_x key best_key ≤ v)
        | .partition_mask _ => false
    else
      fun key => match best_value with
        | .threshold _ => false
        | .partition_mask mask =>
            !(Nat.testBit mask (env.level_bit (env.get_x key best_key)))
  let lo := st7.start_pos.getD node_key 0
  let hi := st7.start_pos.getD right_key 0
  let part := partition_loop is_left (hi - lo) st7.sample_keys lo hi
  let st8 := { st7 with
    sample_keys := part.1,
    start_pos := st7.start_pos.set right_key part.2 }
  { st8 with
    end_pos := (st8.end_pos.set left_key part.2).set right_key
      (st8.end_pos.getD node_key 0) }

/-- Embedding of `TreeBase::split_node` (`TreeBase.defn.h` lines 354-468).
The parameter names and their order are those of the C++ *definition*:
`(node_key, last_left_node_key, depth, ...)`.  Note that the declaration in
`TreeBase.decl.h` (lines 294-301) and the call site in `TreeBase::grow`
order these arguments as `(node_key, depth, last_left_node_key, ...)`, so
the grow loop below passes its `depth` into this function's
`last_left_node_key` and vice versa, exactly as the compiled C++ does. -/
def split_node {α : Type} [LinearOrder α] [Inhabited α] (env : TreeGrowEnv α)
    (parameters : TrainingParameters) (node_key last_left_node_key depth : Nat)
    (st : GrowState α) : Except ErrKind (GrowState α × Bool) :=
  let n_sample_node := st.end_pos.getD node_key 0 - st.start_pos.getD node_key 0
  if parameters.max_depth ≠ 0 ∧ depth > parameters.max_depth then
    .error .runtimeError
  else
    let too_deep := node_key ≥ last_left_node_key ∧ parameters.max_depth ≠ 0 ∧
      depth = parameters.max_depth
    if n_sample_node ≤ parameters.min_split_n_sample ∨ too_deep then
      .ok (add_terminal_node node_key st, false)
    else
      let start_key := st.sample_keys.getD (st.start_pos.getD node_key 0) 0
      let is_pure := (List.range n_sample_node).all (fun j =>
        env.same_response start_key
          (st.sample_keys.getD (st.start_pos.getD node_key 0 + j) 0))
      if is_pure then .ok (add_terminal_node node_key st, false)
      else match env.push_best_split node_key st with
      | none => .ok (add_terminal_node node_key st, false)
      | some (best_key, best_value) =>
          .ok (do_split env node_key best_key best_value st, true)

/-- The node-splitting loop of `TreeBase::grow` (`TreeBase.defn.h` lines
156-167): iterate over node keys in creation order while any node is open;
a successful split of a node at or past `last_left_node_key` starts the
next depth level at the first of the two freshly appended children
(`split_keys.size() - 2`).  The fuel bounds the number of iterations (the
C++ loop is unbounded); running out of fuel is reported as
`ErrKind.fuelExhausted`, which no C++ path produces. -/
def grow_loop {α : Type} [LinearOrder α] [Inhabited α] (env : TreeGrowEnv α)
    (parameters : TrainingParameters) :
    Nat → Nat → Nat → Nat → Nat → GrowState α →
    Except (ErrKind × GrowState α) (GrowState α)
  | 0, n_open_node, _, _, _, st =>
      if n_open_node = 0 then .ok st else .error (.fuelExhausted, st)
  | fuel + 1, n_open_node, node_key, depth, last_left_node_key, st =>
      if n_open_node = 0 then .ok st
      else
        match split_node env parameters node_key depth last_left_node_key st with
        | .error e => .error (e, st)
        | .ok (st', false) =>
            grow_loop env parameters fuel (n_open_node - 1) (node_key + 1) depth
              last_left_node_key st'
        | .ok (st', true) =>
            if node_key ≥ last_left_node_key then
              grow_loop env parameters fuel (n_open_node + 1) (node_key + 1)
                (depth + 1) (st'.split_keys.length - 2) st'
            else
              grow_loop env parameters fuel (n_open_node + 1) (node_key + 1) depth
                last_left_node_key st'

/-- Embedding of `TreeBase::grow` (`TreeBase.defn.h` lines 101-174): check
the tree is empty, check `n_try ≤ n_predictor` (else `std::domain_error`),
run the virtual `new_growth`, push the root node, reject combining case
weights with response-wise fractions, resample (by strategy), initialise
the root's sample range, and run the splitting loop.  Errors carry the
state of the tree object at the throw, as C++ exceptions leave the object
in its partially mutated state. -/
def grow {α : Type} [LinearOrder α] [Inhabited α] (env : TreeGrowEnv α)
    (parameters : TrainingParameters) (case_weights : List ℚ) (rnd : GrowRandom)
    (compute_oob_error_flag : Bool) (fuel : Nat) (st0 : GrowState α) :
    Except (ErrKind × GrowState α) (GrowState α × List Nat) :=
  if st0.split_keys.length ≠ 0 then .error (.runtimeError, st0)
  else if parameters.n_try > env.n_predictor then .error (.domainError, st0)
  else match env.new_growth_error with
  | some e => .error (e, st0)
  | none =>
    let st1 := push_back_empty_node st0
    let response_wise := parameters.sample_fraction.length > 1
    let weighted := !case_weights.isEmpty
    if weighted ∧ response_wise then .error (.invalidArgument, st1)
    else
      let resampled : Except ErrKind (List Nat × List Nat) :=
        if weighted then
          resample_weighted env.n_row parameters.replace parameters.sample_fraction
            case_weights compute_oob_error_flag rnd.drawn
        else if response_wise then
          if env.response_wise_supported then
            .ok (resample_response_wise env.sample_keys_by_response env.n_row
              parameters.replace parameters.sample_fraction compute_oob_error_flag
              rnd.class_draws rnd.class_perms)
          else .error .invalidArgument
        else
          .ok (resample_unweighted env.n_row parameters.replace
            parameters.sample_fraction compute_oob_error_flag rnd.drawn rnd.perm)
      match resampled with
      | .error e => .error (e, st1)
      | .ok (sample_keys, oob_keys) =>
          let st2 := { st1 with
            sample_keys := sample_keys,
            start_pos := st1.start_pos.set 0 0,
            end_pos := st1.end_pos.set 0 sample_keys.length }
          match grow_loop env parameters fuel 1 0 0 0 st2 with
          | .error e => .error e
          | .ok st' => .ok (st', oob_keys)

/-! Forest merging (`cpp11_merge.cpp`). -/

/-- One step of the loop in `make_key_map` (`cpp11_merge.cpp` lines 192-216)
at index `j_to`: read `to_values[j_to]` (an out-of-range read — undefined
behaviour in C++ — is modelled as a failure), locate it in `from_values`
(`std::find`; `List.findIdx` likewise returns the length when absent), throw
`std::domain_error` when absent or when the located index was already
mapped, else record `key_map[j_from] = j_to`. -/
def make_key_map_step {β : Type} [DecidableEq β] (from_values to_values : List β)
    (acc : List (Nat × Nat)) (j_to : Nat) : Except ErrKind (List (Nat × Nat)) :=
  match to_values[j_to]? with
  | none => .error .outOfRange
  | some v =>
      let j_from := from_values.findIdx (fun w => w = v)
      if j_from ≥ from_values.length then .error .domainError
      else if map_count acc j_from > 0 then .error .domainError
      else .ok (acc ++ [(j_from, j_to)])

/-- The loop of `make_key_map`, iterating `j_to` upward `count` times. -/
def make_key_map_go {β : Type} [DecidableEq β] (from_values to_values : List β) :
    Nat → Nat → List (Nat × Nat) → Except ErrKind (List (Nat × Nat))
  | 0, _, acc => .ok acc
  | count + 1, j_to, acc =>
      match make_key_map_step from_values to_values acc j_to with
      | .error e => .error e
      | .ok acc' => make_key_map_go from_values to_values count (j_to + 1) acc'

/-- Embedding of `make_key_map` (`cpp11_merge.cpp` lines 192-216): iterate
`j_to` over `[0, from_values.size())`, mapping the index (in `from_values`)
of `to_values[j_to]` to `j_to`. -/
def make_key_map {β : Type} [DecidableEq β] (from_values to_values : List β) :
    Except ErrKind (List (Nat × Nat)) :=
  make_key_map_go from_values to_values from_values.length 0 []

/-- Content of one classification tree as touched by merging: its split
keys and (for `transform_response_keys`,
`TreeClassification.defn.h` lines 84-98) the response weights, the leaf
in-bag response keys, and the cached most-frequent key per leaf. -/
structure TreeMergeModel where
  split_keys : List Nat
  response_weights : List ℚ
  leaf_keys : List (Nat × List Nat)
  leaf_most_frequent : List (Nat × Nat)
deriving DecidableEq

/-- Embedding of `TreeClassification::transform_response_keys`: permute the
response weights through the map and rewrite every leaf response key and
every cached most-frequent key via `key_map[key]` (`operator[]`
value-initialises a missing key to `0`, hence `getD _ 0`). -/
def transform_response_keys (key_map : List (Nat × Nat)) (tree : TreeMergeModel) :
    TreeMergeModel where
  split_keys := tree.split_keys
  response_weights := key_map.foldl
    (fun w p => w.set p.2 (tree.response_weights.getD p.1 0)) tree.response_weights
  leaf_keys := tree.leaf_keys.map
    (fun leaf => (leaf.1, leaf.2.map (fun key => (map_lookup key_map key).getD 0)))
  leaf_most_frequent := tree.leaf_most_frequent.map
    (fun leaf => (leaf.1, (map_lookup key_map leaf.2).getD 0))

/-- A forest as seen by `cpp11_merge`: tree type, predictor count and
ordering indicators, classification response values, and the tree list. -/
structure ForestMergeModel where
  tree_type : TreeType
  n_predictor : Nat
  is_ordered : List Bool
  response_values : List ℚ
  trees : List TreeMergeModel
deriving DecidableEq

/-- Rewrite one tree copied from the second forest:
`transform_split_keys(predictor_map)` (which can throw) followed by
`transform_response_keys(key_map)`. -/
def merge_transform_tree (n_predictor : Nat) (predictor_map key_map : List (Nat × Nat))
    (tree : TreeMergeModel) : Except ErrKind TreeMergeModel :=
  match transform_split_keys n_predictor predictor_map tree.split_keys with
  | .error e => .error e
  | .ok keys => .ok (transform_response_keys key_map { tree with split_keys := keys })

/-- The loop of `cpp11_merge` that copies and rewrites the second forest's
trees one by one, propagating the first exception. -/
def merge_map_trees (f : TreeMergeModel → Except ErrKind TreeMergeModel) :
    List TreeMergeModel → Except ErrKind (List TreeMergeModel)
  | [] => .ok []
  | tree :: rest =>
      match f tree with
      | .error e => .error e
      | .ok tree' =>
          match merge_map_trees f rest with
          | .error e => .error e
          | .ok rest' => .ok (tree' :: rest')

/-- Embedding of `cpp11_merge` (`cpp11_merge.cpp` lines 56-189) for tree
lists already extracted: check matching tree type and predictor count,
build the predictor map from the second forest's names to the first's,
check that the map preserves each predictor's ordered property, and then —
for classification — build the response-value map and append the second
forest's trees with split keys and response keys rewritten; for regression
only split keys are rewritten.  The merged forest keeps the first forest's
`response_values` and `is_ordered`. -/
def cpp11_merge (x y : ForestMergeModel) (x_predictors y_predictors : List String) :
    Except ErrKind ForestMergeModel :=
  if x.tree_type ≠ y.tree_type then .error .invalidArgument
  else if x.n_predictor ≠ y.n_predictor then .error .invalidArgument
  else match make_key_map y_predictors x_predictors with
  | .error e => .error e
  | .ok predictor_map =>
      if predictor_map.any (fun p =>
          y.is_ordered.getD p.1 false ≠ x.is_ordered.getD p.2 false) then
        .error .invalidArgument
      else match x.tree_type with
      | .classification =>
          match make_key_map y.response_values x.response_values with
          | .error e => .error e
          | .ok key_map =>
              match merge_map_trees
                  (merge_transform_tree x.n_predictor predictor_map key_map) y.trees with
              | .error e => .error e
              | .ok y_trees =>
                  .ok { tree_type := .classification, n_predictor := x.n_predictor,
                        is_ordered := x.is_ordered,
                        response_values := x.response_values,
                        trees := x.trees ++ y_trees }
      | .regression =>
          match merge_map_trees (fun tree =>
              match transform_split_keys x.n_predictor predictor_map tree.split_keys with
              | .error e => .error e
              | .ok keys => .ok { tree with split_keys := keys }) y.trees with
          | .error e => .error e
          | .ok y_trees =>
              .ok { tree_type := .regression, n_predictor := x.n_predictor,
                    is_ordered := x.is_ordered, response_values := x.response_values,
                    trees := x.trees ++ y_trees }

/-! Concrete instantiations used by counterexamples and witnesses. -/

/-- Training parameters shared by the concrete growth runs: no replacement,
whole-sample fraction, one candidate per split, gini rule, minimum split
size one. -/
def demo_parameters (max_depth : Nat) : TrainingParameters where
  replace := false
  sample_fraction := [1]
  n_try := 1
  draw_always_predictor_keys := []
  draw_predictor_weights := []
  response_weights := []
  split_rule := SplitRule.logrank
  min_metric_decrease := 0
  max_depth := max_depth
  min_split_n_sample := 1
  min_leaf_n_sample := 1
  n_random_split := 0
  min_prop := 0

/-- A midpoint split search over the node's sample slice: split the single
ordered predictor at the midpoint of the observed minimum and maximum,
succeeding whenever the node's values are not all equal.  This realises the
abstract `push_best_split` with behaviour any ordinary split rule exhibits
on distinct values. -/
def midpoint_push_best_split (get_x : Nat → Nat → Int) (node_key : Nat)
    (st : GrowState Int) : Option (Nat × SplitVal Int) :=
  let lo := st.start_pos.getD node_key 0
  let hi := st.end_pos.getD node_key 0
  match (List.range (hi - lo)).map (fun j => get_x (st.sample_keys.getD (lo + j) 0) 0) with
  | [] => none
  | v :: vs =>
      let mn := vs.foldl min v
      let mx := vs.foldl max v
      if mn < mx then some (0, .threshold ((mn + mx) / 2)) else none

/-- A concrete growth environment with `n` rows over one ordered predictor
whose value at row `k` is `k`, all responses distinct, and the midpoint
split search. -/
def demo_env (n : Nat) : TreeGrowEnv Int where
  n_predictor := 1
  is_ordered := [true]
  n_row := n
  get_x := fun key _ => (key : Int)
  level_bit := fun x => (x - 1).toNat
  same_response := fun a b => a == b
  sample_keys_by_response := []
  response_wise_supported := true
  new_growth_error := none
  push_best_split := midpoint_push_best_split (fun key _ => (key : Int))

/-- Identity-shuffle randomness over `n` rows. -/
def demo_random (n : Nat) : GrowRandom where
  drawn := []
  perm := List.range n
  class_draws := []
  class_perms := []

/-- The error kind carried by a failed growth run, if any. -/
def thrown_error {α : Type} (r : Except (ErrKind × GrowState α) (GrowState α × List Nat)) :
    Option ErrKind :=
  match r with
  | .error e => some e.1
  | .ok _ => none

/-- Node-array invariant claimed for grown trees: every node is either a
leaf (both child keys zero) or an internal node whose right child
immediately follows its left child, both strictly later than the node. -/
def child_inv {α : Type} (st : GrowState α) : Prop :=
  ∀ i, i < st.left_children.length →
    (st.left_children.getD i 0 = 0 ∧ st.right_children.getD i 0 = 0) ∨
    (st.right_children.getD i 0 = st.left_children.getD i 0 + 1 ∧
      i < st.left_children.getD i 0)

/-- Invariant carried through the growth loop: the three node arrays share
their length and `child_inv` holds. -/
def grow_inv {α : Type} (st : GrowState α) : Prop :=
  st.right_children.length = st.left_children.length ∧
  st.split_keys.length = st.left_children.length ∧
  child_inv st

/-- For index `j_to` of `to_values`, the index of `to_values[j_to]` within
`from_values` (the `std::find` distance of `make_key_map`), when `j_to` is
in range. -/
def to_from_idx {β : Type} [DecidableEq β] (from_values to_values : List β)
    (j : Nat) : Option Nat :=
  (to_values[j]?).map (fun v => from_values.findIdx (fun w => w = v))

/-- Success condition for iteration `j` of the `make_key_map` loop:
`to_values[j]` exists, is found in `from_values`, and its index there was
not produced by any earlier iteration. -/
def key_map_step_ok {β : Type} [DecidableEq β] (from_values to_values : List β)
    (j : Nat) : Prop :=
  (to_from_idx from_values to_values j).isSome = true ∧
  (to_from_idx from_values to_values j).getD 0 < from_values.length ∧
  ∀ i < j, to_from_idx from_values to_values i ≠
    some ((to_from_idx from_values to_values j).getD 0)

/-- Success condition for the whole `make_key_map` call: every iteration
succeeds.  Equivalently, the first `|from_values|` entries of `to_values`
are exactly the values of `from_values` up to order. -/
def key_map_ok {β : Type} [DecidableEq β] (from_values to_values : List β) : Prop :=
  ∀ j < from_values.length, key_map_step_ok from_values to_values j

/-- The association list built by the first `t` iterations of a successful
`make_key_map` run. -/
def key_map_front {β : Type} [DecidableEq β] (from_values to_values : List β)
    (t : Nat) : List (Nat × Nat) :=
  (List.range t).map (fun j => ((to_from_idx from_values to_values j).getD 0, j))

/-- First forest of the merge counterexample: three response values. -/
def merge_x_forest : ForestMergeModel :=
  ⟨.classification, 1, [true], [1, 2, 3], []⟩

/-- Second forest of the merge counterexample: its single response value is
a subset of the first's. -/
def merge_y_forest : ForestMergeModel :=
  ⟨.classification, 1, [true], [3], []⟩

/-- First forest of the merge success witness: two predictors `a` (ordered)
and `b` (unordered), response values `[1, 2]`, one tree. -/
def merge_xw_forest : ForestMergeModel :=
  ⟨.classification, 2, [true, false], [1, 2], [⟨[0], [1, 1], [(0, [0, 1])], [(0, 0)]⟩]⟩

/-- Second forest of the merge success witness: predictor names `[b, a]`,
response values `[2, 1]`, one tree splitting both predictors. -/
def merge_yw_forest : ForestMergeModel :=
  ⟨.classification, 2, [false, true], [2, 1], [⟨[0, 1], [5, 7], [(0, [0, 1])], [(0, 1)]⟩]⟩

/-- Parameters using the Hellinger split rule, for the guard witness. -/
def hellinger_parameters : TrainingParameters :=
  { demo_parameters 0 with split_rule := SplitRule.hellinger }

/-- Deterministic stand-in for `most_frequent_value`: the head of the list
(which, for the concrete witness rows below, is a key of maximal count). -/
def pick_head (l : List Nat) : Nat := l.headD 0

/-- The tree produced by growing on the two-row demo environment with
unlimited depth: one split at the root, children 1 and 2. -/
def demo_grown_state : GrowState Int :=
  ⟨[0, 0, 0], [.threshold 0, .threshold 0, .threshold 0], [1, 0, 0], [2, 0, 0],
   [0, 0, 1], [2, 1, 2], [1, 2], [0, 1]⟩

/-! Theorems. -/

/-- C1.  The claim is that with `max_depth = d > 0` a node reached at depth
`d` is made terminal before any split is attempted and growth succeeds.
The code instead throws: the definition of `split_node` swaps the
`depth` / `last_left_node_key` parameters relative to its declaration and
to the call in `grow`, so the entry guard compares the frontier node index
with `max_depth`.  Concretely: eight rows over one ordered predictor with
pairwise distinct responses, `max_depth = 2`, whole-sample resampling —
nodes 0 and 1 split, and processing node 2 (which is at depth 1) throws
`std::runtime_error` ("Cannot split a node that is already at maximum
depth of tree") because `last_left_node_key = 3 > 2 = max_depth`. -/
theorem max_depth_swap_bug :
    thrown_error (grow (demo_env 8) (demo_parameters 2) [] (demo_random 8) false 20
      (empty_grow_state Int)) = some ErrKind.runtimeError := by
  rfl

/-- C10.  Calling `grow` on an empty tree with `n_try > n_predictor` throws
`std::domain_error` before the virtual `new_growth` runs, before any node
is pushed and before any resampling occurs: the failure state is still the
empty tree, for every environment, caseweight vector, randomness and fuel. -/
theorem n_try_guard_atomic {α : Type} [LinearOrder α] [Inhabited α]
    (env : TreeGrowEnv α) (parameters : TrainingParameters) (case_weights : List ℚ)
    (rnd : GrowRandom) (oob_flag : Bool) (fuel : Nat)
    (h : parameters.n_try > env.n_predictor) :
    grow env parameters case_weights rnd oob_flag fuel (empty_grow_state α) =
      .error (.domainError, empty_grow_state α) := by
  simp [grow, empty_grow_state, h]

/-- C10 witness: two candidate predictors requested of a one-predictor
environment. -/
theorem n_try_guard_atomic_witness :
    grow (demo_env 8) { demo_parameters 0 with n_try := 2 } [] (demo_random 8) false 20
      (empty_grow_state Int) = .error (.domainError, empty_grow_state Int) :=
  n_try_guard_atomic (demo_env 8) { demo_parameters 0 with n_try := 2 } []
    (demo_random 8) false 20 (by decide)

/-- C2.  Whatever `size_t` value `cpp11::as_cpp<size_t>` produces from the
numeric `min_metric_decrease` entry, the serialization envelope preserves
the forest payload (node arrays, leaf maps) exactly, but the round trip is
not the identity: a maxstat forest stores `min_metric_decrease = -alpha =
-1/20`, and deserialization returns a non-negative integer instead. -/
theorem serialize_round_trip_bug :
    (∀ (conv : ℚ → Nat) (x : RandomForestObject),
      (cpp11_deserialize (cpp11_serialize conv x)).forest = x.forest) ∧
    ∀ conv : ℚ → Nat,
      cpp11_deserialize (cpp11_serialize conv maxstat_forest_object) ≠
        maxstat_forest_object := by
  refine ⟨fun conv x => rfl, fun conv h => ?_⟩
  have hm := congrArg RandomForestObject.min_metric_decrease h
  simp only [cpp11_deserialize, cpp11_serialize, maxstat_forest_object] at hm
  have hge : (0 : ℚ) ≤ ((conv (-(1/20 : ℚ)) : Nat) : ℚ) := Nat.cast_nonneg _
  rw [hm] at hge
  norm_num at hge

/-- C3.  Response-wise resampling without replacement returns the wrong
out-of-bag set: the per-class loop increments `inbag_counts` for the rows
it drops from the in-bag sample, so rows never drawn are reported as
in-bag.  With two rows in two classes and fractions `[1/10, 1/10]` nothing
is drawn (`sample_keys = []`), yet the returned out-of-bag set is empty,
whereas the complement of the drawn keys is every row, `[0, 1]`.  (With a
single-row bucket the only shuffle of its positions is `[0]`, so this
evaluation covers every possible PRNG outcome.) -/
theorem response_wise_oob_bug :
    resample_response_wise [[0], [1]] 2 false [1/10, 1/10] true [] [[0], [0]] =
      ([], []) ∧
    (List.range 2).filter (fun j => ([] : List Nat).count j = 0) = [0, 1] := by
  constructor
  · have h1 : round ((10 : ℚ)⁻¹) = 0 := by rw [round_eq]; norm_num
    have h2 : round ((10 : ℚ)⁻¹ + 10⁻¹) = 0 := by rw [round_eq]; norm_num
    simp [resample_response_wise, resample_response_wise_impl_go, h1, h2, bump]
    decide
  · decide

lemma getD_set_self {γ : Type} (l : List γ) (i : Nat) (a d : γ) (h : i < l.length) :
    (l.set i a).getD i d = a := by
  simp [List.getD_eq_getElem?_getD, List.getElem?_set_self, h]

lemma getD_set_ne {γ : Type} (l : List γ) (i j : Nat) (a d : γ) (h : i ≠ j) :
    (l.set i a).getD j d = l.getD j d := by
  simp [List.getD_eq_getElem?_getD, List.getElem?_set_ne, h]

lemma getD_append_left {γ : Type} (l m' : List γ) (j : Nat) (d : γ) (h : j < l.length) :
    (l ++ m').getD j d = l.getD j d := by
  simp [List.getD_eq_getElem?_getD, List.getElem?_append, h]

lemma getD_append_len {γ : Type} (l : List γ) (a d : γ) :
    (l ++ [a]).getD l.length d = a := by
  simp [List.getD_eq_getElem?_getD]

lemma map_count_eq_zero (m : List (Nat × Nat)) (k : Nat) :
    map_count m k = 0 ↔ map_lookup m k = none := by
  unfold map_count map_lookup
  rw [List.length_eq_zero, List.filter_eq_nil_iff, Option.map_eq_none',
    List.find?_eq_none]

lemma map_count_eq_keys_count (m : List (Nat × Nat)) (k : Nat) :
    map_count m k = (m.map Prod.fst).count k := by
  unfold map_count
  rw [← List.countP_eq_length_filter, List.count, List.countP_map]
  rfl

lemma map_count_le_one (m : List (Nat × Nat)) (k : Nat)
    (hnodup : (m.map Prod.fst).Nodup) : map_count m k ≤ 1 := by
  rw [map_count_eq_keys_count]
  exact List.nodup_iff_count_le_one.mp hnodup k

lemma map_lookup_mem (m : List (Nat × Nat)) (k v : Nat)
    (h : map_lookup m k = some v) : (k, v) ∈ m := by
  unfold map_lookup at h
  cases hf : m.find? (fun p => p.1 == k) with
  | none => rw [hf] at h; simp at h
  | some p =>
      rw [hf] at h
      simp only [Option.map_some', Option.some.injEq] at h
      have hp := List.find?_some hf
      simp only [beq_iff_eq] at hp
      have hmem := List.mem_of_find?_eq_some hf
      have : p = (k, v) := by cases p; simp_all
      rwa [this] at hmem

lemma map_count_one_iff (m : List (Nat × Nat)) (k : Nat)
    (hnodup : (m.map Prod.fst).Nodup) :
    map_count m k = 1 ↔ (map_lookup m k).isSome = true := by
  have h0 := map_count_eq_zero m k
  have h1 := map_count_le_one m k hnodup
  constructor
  · intro h
    cases hl : map_lookup m k with
    | none => rw [← h0] at hl; omega
    | some v => simp
  · intro h
    cases hl : map_lookup m k with
    | none => rw [hl] at h; simp at h
    | some v =>
        have : ¬ map_count m k = 0 := by
          rw [h0, hl]; simp
        omega

/-- C4, counterexample.  The claim says `transform_split_keys` fails with a
`DomainError` unless the map is a total bijection on `[0, n_predictor)`,
and in particular rejects a total, in-range, non-injective map.  The map
`{0 ↦ 0, 1 ↦ 0}` over two predictors is total and in range but not
injective (`0` and `1` share the image `0`), yet the call succeeds and
rewrites the split keys `[0, 1, 0]` to `[0, 0, 0]`. -/
theorem transform_split_keys_counterexample :
    transform_split_keys 2 [(0, 0), (1, 0)] [0, 1, 0] = .ok [0, 0, 0] ∧
    map_lookup [(0, 0), (1, 0)] 0 = some 0 ∧
    map_lookup [(0, 0), (1, 0)] 1 = some 0 :=
  ⟨rfl, rfl, rfl⟩

/-- C4, amended.  `transform_split_keys(map)` rewrites every `split_key[i]`
to `map[split_key[i]]`; it throws `std::invalid_argument` (not
`DomainError`) when the map's size differs from `n_predictor`, and
`std::domain_error` when some `j < n_predictor` is missing from the map or
maps out of range.  Injectivity is not checked: any total, in-range map is
accepted.  (The hypothesis records that a C++ `unordered_map` has distinct
keys.) -/
theorem transform_split_keys_amended (n : Nat) (m : List (Nat × Nat))
    (keys : List Nat) (hnodup : (m.map Prod.fst).Nodup) :
    transform_split_keys n m keys =
      if m.length ≠ n then .error .invalidArgument
      else if ∀ j < n, (map_lookup m j).isSome = true ∧ (map_lookup m j).getD 0 < n then
        .ok (keys.map (fun key => (map_lookup m key).getD 0))
      else .error .domainError := by
  unfold transform_split_keys
  by_cases hlen : m.length ≠ n
  · simp [hlen]
  · simp only [hlen, if_false]
    by_cases hall : ∀ j < n, (map_lookup m j).isSome = true ∧ (map_lookup m j).getD 0 < n
    · have hany : ((List.range n).any
          (fun j => map_count m j ≠ 1 ∨ (map_lookup m j).getD 0 ≥ n)) = false := by
        simp only [List.any_eq_false, List.mem_range, decide_eq_true_eq]
        intro j hj
        push_neg
        obtain ⟨hsome, hlt⟩ := hall j hj
        exact ⟨(map_count_one_iff m j hnodup).mpr hsome, hlt⟩
      have hcond : ¬(((List.range n).any
          (fun j => map_count m j ≠ 1 ∨ (map_lookup m j).getD 0 ≥ n)) = true) := by
        rw [hany]; exact Bool.false_ne_true
      rw [if_neg hcond, if_pos hall]
    · have hany : ((List.range n).any
          (fun j => map_count m j ≠ 1 ∨ (map_lookup m j).getD 0 ≥ n)) = true := by
        rw [List.any_eq_true]
        push_neg at hall
        obtain ⟨j, hj, hbad⟩ := hall
        refine ⟨j, List.mem_range.mpr hj, ?_⟩
        simp only [decide_eq_true_eq]
        by_cases hsome : (map_lookup m j).isSome = true
        · exact Or.inr (hbad hsome)
        · exact Or.inl (fun hc => hsome ((map_count_one_iff m j hnodup).mp hc))
      rw [if_pos hany, if_neg hall]

/-- C4 witness for the amended theorem: the swap map `{1 ↦ 0, 0 ↦ 1}` on
two predictors is total and in range, so the keys `[0, 1, 0]` are rewritten
to `[1, 0, 1]`. -/
theorem transform_split_keys_amended_witness :
    transform_split_keys 2 [(1, 0), (0, 1)] [0, 1, 0] = .ok [1, 0, 1] :=
  (transform_split_keys_amended 2 [(1, 0), (0, 1)] [0, 1, 0] (by decide)).trans (by rfl)

/-- C6.  Training a classification forest where any tree uses the Hellinger
split rule fails with `std::invalid_argument` in
`ForestClassification::new_growth` whenever the number of distinct observed
response values differs from two. -/
theorem hellinger_guard (forest_parameters : List TrainingParameters) (y : List ℚ)
    (h1 : ∃ p ∈ forest_parameters, p.split_rule = SplitRule.hellinger)
    (h2 : (response_values_of y).length ≠ 2) :
    forest_classification_new_growth forest_parameters (response_values_of y) =
      .error .invalidArgument := by
  unfold forest_classification_new_growth
  have hany : forest_parameters.any
      (fun parameters => parameters.split_rule = SplitRule.hellinger) = true := by
    rw [List.any_eq_true]
    obtain ⟨p, hp, hs⟩ := h1
    exact ⟨p, hp, by simp [hs]⟩
  simp [hany, h2]

/-- C6 witness: a three-class response with a Hellinger-rule tree. -/
theorem hellinger_guard_witness :
    forest_classification_new_growth [hellinger_parameters]
      (response_values_of [5, 7, 9, 5]) = .error .invalidArgument :=
  hellinger_guard [hellinger_parameters] [5, 7, 9, 5]
    ⟨hellinger_parameters, by simp, by decide⟩ (by decide)

lemma mem_unique_consecutive {α : Type} [LinearOrder α] :
    ∀ (l : List α) (v : α), v ∈ unique_consecutive l ↔ v ∈ l
  | [], v => by simp [unique_consecutive]
  | [a], v => by simp [unique_consecutive]
  | a :: b :: rest, v => by
      rw [unique_consecutive]
      by_cases h : a = b
      · rw [if_pos h, mem_unique_consecutive (b :: rest) v, h]
        simp only [List.mem_cons]
        tauto
      · rw [if_neg h]
        simp only [List.mem_cons, mem_unique_consecutive (b :: rest) v]

lemma unique_consecutive_sorted {α : Type} [LinearOrder α] :
    ∀ l : List α, l.Sorted (· ≤ ·) → (unique_consecutive l).Sorted (· < ·)
  | [], _ => by simp [unique_consecutive]
  | [a], _ => by simp [unique_consecutive]
  | a :: b :: rest, h => by
      rw [unique_consecutive]
      have hab : a ≤ b := (List.sorted_cons.mp h).1 b (by simp)
      have htail : (b :: rest).Sorted (· ≤ ·) := (List.sorted_cons.mp h).2
      by_cases hEq : a = b
      · rw [if_pos hEq]
        exact unique_consecutive_sorted (b :: rest) htail
      · rw [if_neg hEq, List.sorted_cons]
        refine ⟨?_, unique_consecutive_sorted (b :: rest) htail⟩
        intro x hx
        rw [mem_unique_consecutive] at hx
        have hbx : b ≤ x := by
          rcases List.mem_cons.mp hx with rfl | hx'
          · exact le_refl x
          · exact (List.sorted_cons.mp htail).1 x hx'
        exact lt_of_lt_of_le (lt_of_le_of_ne hab hEq) hbx

/-- C7.  With `start ≤ stop ≤ |sample_keys|`, `Data::get_all_values` returns
exactly the strictly sorted (hence duplicate-free) list of the values
`get_x(sample_keys[j], predictor_key)` for `j ∈ [start, stop)`; and both
`get_all_values` and `get_minmax_values` throw precisely when
`start > stop`. -/
theorem get_all_values_spec {α : Type} [LinearOrder α] (get_x : Nat → Nat → α)
    (sample_keys : List Nat) (predictor_key start stop : Nat) (dflt : α)
    (h1 : start ≤ stop) (h2 : stop ≤ sample_keys.length) :
    (∃ l, get_all_values get_x sample_keys predictor_key start stop = .ok l ∧
      l.Sorted (· < ·) ∧
      ∀ v, (v ∈ l ↔ ∃ j, start ≤ j ∧ j < stop ∧
        v = get_x (sample_keys.getD j 0) predictor_key)) ∧
    (∀ s e : Nat,
      (∀ es, get_all_values get_x sample_keys predictor_key s e ≠ .error es) ↔ s ≤ e) ∧
    (∀ s e : Nat,
      (∀ es, get_minmax_values get_x dflt sample_keys predictor_key s e ≠ .error es) ↔
        s ≤ e) := by
  refine ⟨?_, ?_, ?_⟩
  · rw [get_all_values, if_neg (by omega)]
    refine ⟨_, rfl, ?_, ?_⟩
    · exact unique_consecutive_sorted _ (List.sorted_insertionSort _ _)
    · intro v
      rw [mem_unique_consecutive, List.mem_insertionSort, List.mem_map]
      constructor
      · rintro ⟨j, hj, rfl⟩
        rw [List.mem_range] at hj
        exact ⟨start + j, by omega, by omega, rfl⟩
      · rintro ⟨j, hsj, hjs, rfl⟩
        exact ⟨j - start, List.mem_range.mpr (by omega),
          by rw [Nat.add_sub_cancel' hsj]⟩
  · intro s e
    by_cases hse : s ≤ e
    · simp [get_all_values, Nat.not_lt.mpr hse, hse]
    · constructor
      · intro hne
        exact absurd (hne .invalidArgument (by rw [get_all_values, if_pos (by omega)]))
          (fun h => h)
      · intro h; omega
  · intro s e
    by_cases hse : s ≤ e
    · simp [get_minmax_values, Nat.not_lt.mpr hse, hse]
    · constructor
      · intro hne
        exact absurd (hne .invalidArgument (by rw [get_minmax_values, if_pos (by omega)]))
          (fun h => h)
      · intro h; omega

/-- C7 witness: keys `[5, 1, 2, 2, 4]`, slice `[1, 4)` of the predictor
`k ↦ k % 3` — observed values `[1, 2, 2]`, returned `[1, 2]`. -/
theorem get_all_values_spec_witness :
    (∃ l, get_all_values (fun k _ => k % 3) [5, 1, 2, 2, 4] 0 1 4 = .ok l ∧
      l.Sorted (· < ·) ∧
      ∀ v, (v ∈ l ↔ ∃ j, 1 ≤ j ∧ j < 4 ∧
        v = (fun k _ => k % 3) (([5, 1, 2, 2, 4] : List Nat).getD j 0) 0)) ∧
    (∀ s e : Nat,
      (∀ es, get_all_values (fun k _ => k % 3) [5, 1, 2, 2, 4] 0 s e ≠ .error es) ↔
        s ≤ e) ∧
    (∀ s e : Nat,
      (∀ es, get_minmax_values (fun k _ => k % 3) 0 [5, 1, 2, 2, 4] 0 s e ≠ .error es) ↔
        s ≤ e) :=
  get_all_values_spec (fun k _ => k % 3) [5, 1, 2, 2, 4] 0 1 4 0 (by decide) (by decide)

lemma oob_tally_eq (pick : List Nat → Nat) :
    ∀ rows : List (List Nat × Nat),
      oob_tally pick rows =
        (rows.countP (fun r => !r.1.isEmpty && decide (pick r.1 ≠ r.2)),
         rows.countP (fun r => !r.1.isEmpty))
  | [] => by simp [oob_tally]
  | (predictions, observed) :: rest => by
      rw [oob_tally, oob_tally_eq pick rest]
      by_cases hh : predictions.isEmpty
      · simp [hh, List.countP_cons]
      · by_cases hm : pick predictions ≠ observed <;>
          simp [hh, hm, List.countP_cons]

/-- C8.  When at least one row has an out-of-bag prediction and the
most-frequent choice is a genuine majority pick, the classification OOB
error equals the number of rows whose majority out-of-bag prediction
differs from the observed response divided by the number of rows that
received any out-of-bag prediction (rows without predictions are excluded),
and it lies in `[0, 1]`; the regression OOB error (mean squared error over
predicted rows) is non-negative. -/
theorem oob_error_spec (pick : List Nat → Nat) (oob_predictions : List (List Nat))
    (response_index : List Nat) (oob_values : List (List ℚ)) (y : List ℚ)
    (hpick : most_frequent_ok pick oob_predictions)
    (hpred : 0 < (oob_predictions.zip response_index).countP (fun r => !r.1.isEmpty)) :
    compute_oob_error pick oob_predictions response_index =
      (((oob_predictions.zip response_index).countP
        (fun r => !r.1.isEmpty && decide (pick r.1 ≠ r.2)) : ℚ)) /
      (((oob_predictions.zip response_index).countP (fun r => !r.1.isEmpty) : ℚ)) ∧
    0 ≤ compute_oob_error pick oob_predictions response_index ∧
    compute_oob_error pick oob_predictions response_index ≤ 1 ∧
    0 ≤ regression_oob_error oob_values y := by
  have heq : compute_oob_error pick oob_predictions response_index =
      (((oob_predictions.zip response_index).countP
        (fun r => !r.1.isEmpty && decide (pick r.1 ≠ r.2)) : ℚ)) /
      (((oob_predictions.zip response_index).countP (fun r => !r.1.isEmpty) : ℚ)) := by
    rw [compute_oob_error, oob_tally_eq]
  have hle : (oob_predictions.zip response_index).countP
      (fun r => !r.1.isEmpty && decide (pick r.1 ≠ r.2)) ≤
      (oob_predictions.zip response_index).countP (fun r => !r.1.isEmpty) := by
    apply List.countP_mono_left
    intro r _ hr
    exact (Bool.and_eq_true _ _ |>.mp hr).1
  have hdpos : (0 : ℚ) <
      (((oob_predictions.zip response_index).countP (fun r => !r.1.isEmpty) : ℚ)) := by
    exact_mod_cast hpred
  refine ⟨heq, ?_, ?_, ?_⟩
  · rw [heq]
    exact div_nonneg (by positivity) (le_of_lt hdpos)
  · rw [heq, div_le_one hdpos]
    exact_mod_cast hle
  · rw [regression_oob_error]
    apply div_nonneg
    · apply List.sum_nonneg
      intro q hq
      obtain ⟨r, _, rfl⟩ := List.mem_map.mp hq
      exact sq_nonneg _
    · exact Nat.cast_nonneg _

/-- C8 witness: three rows, one without predictions; the head of each
prediction list is a maximal-count key; one of the two predicted rows is
misclassified. -/
theorem oob_error_spec_witness :
    compute_oob_error pick_head [[1, 0, 1], [0], []] [0, 0, 1] =
      ((([[1, 0, 1], [0], []].zip [0, 0, 1]).countP
        (fun r => !r.1.isEmpty && decide (pick_head r.1 ≠ r.2)) : ℚ)) /
      ((([[1, 0, 1], [0], []].zip [0, 0, 1]).countP (fun r => !r.1.isEmpty) : ℚ)) ∧
    0 ≤ compute_oob_error pick_head [[1, 0, 1], [0], []] [0, 0, 1] ∧
    compute_oob_error pick_head [[1, 0, 1], [0], []] [0, 0, 1] ≤ 1 ∧
    0 ≤ regression_oob_error [[2], []] [1, 5] :=
  oob_error_spec pick_head [[1, 0, 1], [0], []] [0, 0, 1] [[2], []] [1, 5]
    (by unfold most_frequent_ok; decide) (by decide)

lemma grow_inv_add_terminal {α : Type} (node_key : Nat) (st : GrowState α)
    (h : grow_inv st) : grow_inv (add_terminal_node node_key st) := h

lemma grow_inv_push {α : Type} [Inhabited α] (st : GrowState α) (h : grow_inv st) :
    grow_inv (push_back_empty_node st) := by
  obtain ⟨hrl, hsl, hci⟩ := h
  refine ⟨?_, ?_, ?_⟩
  · simp [push_back_empty_node, hrl]
  · simp [push_back_empty_node, hsl]
  · intro i hi
    simp only [push_back_empty_node, List.length_append, List.length_cons,
      List.length_nil] at hi
    by_cases hlt : i < st.left_children.length
    · have hl := getD_append_left st.left_children [0] i 0 hlt
      have hr := getD_append_left st.right_children [0] i 0 (by omega)
      simp only [push_back_empty_node]
      rw [hl, hr]
      exact hci i hlt
    · have hi' : i = st.left_children.length := by omega
      left
      constructor
      · simp only [push_back_empty_node]
        rw [hi', getD_append_len]
      · simp only [push_back_empty_node]
        rw [hi', ← hrl, getD_append_len]

lemma do_split_split_keys {α : Type} [LinearOrder α] [Inhabited α]
    (env : TreeGrowEnv α) (node_key best_key : Nat) (best_value : SplitVal α)
    (st : GrowState α) :
    (do_split env node_key best_key best_value st).split_keys =
      ((st.split_keys.set node_key best_key) ++ [0]) ++ [0] := rfl

lemma do_split_left_children {α : Type} [LinearOrder α] [Inhabited α]
    (env : TreeGrowEnv α) (node_key best_key : Nat) (best_value : SplitVal α)
    (st : GrowState α) :
    (do_split env node_key best_key best_value st).left_children =
      ((st.left_children.set node_key ((st.split_keys.set node_key best_key).length))
        ++ [0]) ++ [0] := rfl

lemma do_split_right_children {α : Type} [LinearOrder α] [Inhabited α]
    (env : TreeGrowEnv α) (node_key best_key : Nat) (best_value : SplitVal α)
    (st : GrowState α) :
    (do_split env node_key best_key best_value st).right_children =
      ((st.right_children ++ [0]).set node_key
        (((st.split_keys.set node_key best_key) ++ [0]).length)) ++ [0] := rfl

lemma do_split_grow_inv {α : Type} [LinearOrder α] [Inhabited α]
    (env : TreeGrowEnv α) (node_key best_key : Nat) (best_value : SplitVal α)
    (st : GrowState α) (hinv : grow_inv st) (hk : node_key < st.split_keys.length) :
    grow_inv (do_split env node_key best_key best_value st) ∧
    (do_split env node_key best_key best_value st).split_keys.length =
      st.split_keys.length + 2 := by
  obtain ⟨hrl, hsl, hci⟩ := hinv
  set n := st.split_keys.length with hn
  have hkl : node_key < st.left_children.length := by omega
  have hkr : node_key < st.right_children.length := by omega
  have hlen2 : (do_split env node_key best_key best_value st).split_keys.length =
      n + 2 := by
    rw [do_split_split_keys]
    simp [List.length_set]
  have hlenL : (do_split env node_key best_key best_value st).left_children.length =
      n + 2 := by
    rw [do_split_left_children]
    simp [List.length_set, hsl]
  have hlenR : (do_split env node_key best_key best_value st).right_children.length =
      n + 2 := by
    rw [do_split_right_children]
    simp [List.length_set, hrl, hsl]
  refine ⟨⟨by rw [hlenR, hlenL], by rw [hlen2, hlenL], ?_⟩, hlen2⟩
  intro i hi
  rw [hlenL] at hi
  rw [do_split_left_children, do_split_right_children]
  by_cases hik : i = node_key
  · subst hik
    right
    have hL : (((st.left_children.set i ((st.split_keys.set i best_key).length))
        ++ [0]) ++ [0]).getD i 0 = n := by
      rw [getD_append_left _ _ _ _ (by simp [List.length_set]; omega),
        getD_append_left _ _ _ _ (by simp [List.length_set]; omega),
        getD_set_self _ _ _ _ hkl, List.length_set]
    have hR : (((st.right_children ++ [0]).set i
        (((st.split_keys.set i best_key) ++ [0]).length)) ++ [0]).getD i 0 = n + 1 := by
      rw [getD_append_left _ _ _ _ (by simp [List.length_set]; omega),
        getD_set_self _ _ _ _ (by simp; omega)]
      simp [List.length_set]
    rw [hL, hR]
    exact ⟨rfl, by omega⟩
  · by_cases hilt : i < st.left_children.length
    · have hL : (((st.left_children.set node_key ((st.split_keys.set node_key
          best_key).length)) ++ [0]) ++ [0]).getD i 0 = st.left_children.getD i 0 := by
        rw [getD_append_left _ _ _ _ (by simp [List.length_set]; omega),
          getD_append_left _ _ _ _ (by simp [List.length_set]; omega),
          getD_set_ne _ _ _ _ _ (fun hc => hik hc.symm)]
      have hR : (((st.right_children ++ [0]).set node_key
          (((st.split_keys.set node_key best_key) ++ [0]).length)) ++ [0]).getD i 0 =
          st.right_children.getD i 0 := by
        rw [getD_append_left _ _ _ _ (by simp [List.length_set]; omega),
          getD_set_ne _ _ _ _ _ (fun hc => hik hc.symm),
          getD_append_left _ _ _ _ (by omega)]
      rw [hL, hR]
      exact hci i hilt
    · left
      have hin : i = n ∨ i = n + 1 := by omega
      constructor
      · rcases hin with hin | hin
        · rw [getD_append_left _ _ _ _ (by simp [List.length_set]; omega), hin]
          have : n = ((st.left_children.set node_key ((st.split_keys.set node_key
              best_key).length)) : List Nat).length := by simp [List.length_set]; omega
          rw [this, getD_append_len]
        · rw [hin]
          have : n + 1 = (((st.left_children.set node_key ((st.split_keys.set node_key
              best_key).length)) ++ [0]) : List Nat).length := by
            simp [List.length_set]; omega
          rw [this, getD_append_len]
      · rcases hin with hin | hin
        · rw [getD_append_left _ _ _ _ (by simp [List.length_set]; omega), hin,
            getD_set_ne _ _ _ _ _ (by omega)]
          have : n = ((st.right_children ++ [0]) : List Nat).length - 1 := by
            simp; omega
          rw [show n = st.right_children.length from by omega, getD_append_len]
        · rw [hin]
          have : n + 1 = (((st.right_children ++ [0]).set node_key
              (((st.split_keys.set node_key best_key) ++ [0]).length)) : List Nat).length := by
            simp [List.length_set]; omega
          rw [this, getD_append_len]

lemma split_node_result {α : Type} [LinearOrder α] [Inhabited α]
    (env : TreeGrowEnv α) (parameters : TrainingParameters)
    (node_key a b : Nat) (st : GrowState α) :
    split_node env parameters node_key a b st = .error .runtimeError ∨
    split_node env parameters node_key a b st =
      .ok (add_terminal_node node_key st, false) ∨
    ∃ best_key best_value, split_node env parameters node_key a b st =
      .ok (do_split env node_key best_key best_value st, true) := by
  rw [split_node]
  dsimp only
  split_ifs
  · exact Or.inl rfl
  · exact Or.inr (Or.inl rfl)
  · exact Or.inr (Or.inl rfl)
  · cases hpb : env.push_best_split node_key st with
    | none => exact Or.inr (Or.inl rfl)
    | some best =>
        obtain ⟨bk, bv⟩ := best
        exact Or.inr (Or.inr ⟨bk, bv, rfl⟩)

lemma split_node_grow_inv {α : Type} [LinearOrder α] [Inhabited α]
    (env : TreeGrowEnv α) (parameters : TrainingParameters)
    (node_key a b : Nat) (st st' : GrowState α) (flag : Bool)
    (hinv : grow_inv st) (hk : node_key < st.split_keys.length)
    (h : split_node env parameters node_key a b st = .ok (st', flag)) :
    grow_inv st' ∧
    st'.split_keys.length = st.split_keys.length + cond flag 2 0 := by
  rcases split_node_result env parameters node_key a b st with hr | hr | ⟨bk, bv, hr⟩
  · rw [hr] at h; simp at h
  · rw [hr] at h
    simp only [Except.ok.injEq, Prod.mk.injEq] at h
    obtain ⟨h1, h2⟩ := h
    subst h1; subst h2
    exact ⟨grow_inv_add_terminal node_key st hinv, by simp [add_terminal_node]⟩
  · rw [hr] at h
    simp only [Except.ok.injEq, Prod.mk.injEq] at h
    obtain ⟨h1, h2⟩ := h
    subst h1; subst h2
    have hmain := do_split_grow_inv env node_key bk bv st hinv hk
    exact ⟨hmain.1, by simpa using hmain.2⟩

lemma grow_loop_grow_inv {α : Type} [LinearOrder α] [Inhabited α]
    (env : TreeGrowEnv α) (parameters : TrainingParameters) :
    ∀ (fuel n_open node_key d l : Nat) (st st' : GrowState α),
      grow_inv st → node_key + n_open = st.split_keys.length →
      grow_loop env parameters fuel n_open node_key d l st = .ok st' →
      grow_inv st' := by
  intro fuel
  induction fuel with
  | zero =>
      intro n_open node_key d l st st' hinv hlen h
      rw [grow_loop] at h
      by_cases hopen : n_open = 0
      · rw [if_pos hopen] at h
        simp only [Except.ok.injEq] at h; subst h; exact hinv
      · rw [if_neg hopen] at h; simp at h
  | succ fuel ih =>
      intro n_open node_key d l st st' hinv hlen h
      rw [grow_loop] at h
      by_cases hopen : n_open = 0
      · rw [if_pos hopen] at h
        simp only [Except.ok.injEq] at h; subst h; exact hinv
      · rw [if_neg hopen] at h
        cases hsn : split_node env parameters node_key d l st with
        | error e => rw [hsn] at h; simp at h
        | ok pair =>
            obtain ⟨st1, flag⟩ := pair
            rw [hsn] at h
            have hk : node_key < st.split_keys.length := by omega
            have hmain := split_node_grow_inv env parameters node_key d l st st1 flag
              hinv hk hsn
            cases flag with
            | false =>
                have hlen1 : st1.split_keys.length = st.split_keys.length := by
                  simpa using hmain.2
                dsimp only at h
                exact ih (n_open - 1) (node_key + 1) d l st1 st' hmain.1
                  (by omega) h
            | true =>
                have hlen1 : st1.split_keys.length = st.split_keys.length + 2 := by
                  simpa using hmain.2
                dsimp only at h
                by_cases hge : node_key ≥ l
                · rw [if_pos hge] at h
                  exact ih (n_open + 1) (node_key + 1) (d + 1)
                    (st1.split_keys.length - 2) st1 st' hmain.1 (by omega) h
                · rw [if_neg hge] at h
                  exact ih (n_open + 1) (node_key + 1) d l st1 st' hmain.1
                    (by omega) h

/-- C9.  Every tree produced by a successful `grow` run satisfies: for every
node `i`, either both child keys are zero (a leaf), or the right child key
is the left child key plus one and the left child key is strictly greater
than `i` — the two children of every successful split are allocated as a
contiguous pair of strictly later node indices. -/
theorem children_contiguous {α : Type} [LinearOrder α] [Inhabited α]
    (env : TreeGrowEnv α) (parameters : TrainingParameters) (case_weights : List ℚ)
    (rnd : GrowRandom) (oob_flag : Bool) (fuel : Nat) (st : GrowState α)
    (oob : List Nat) (i : Nat)
    (h : grow env parameters case_weights rnd oob_flag fuel (empty_grow_state α) =
      .ok (st, oob))
    (hi : i < st.left_children.length) :
    (st.left_children.getD i 0 = 0 ∧ st.right_children.getD i 0 = 0) ∨
    (st.right_children.getD i 0 = st.left_children.getD i 0 + 1 ∧
      i < st.left_children.getD i 0) := by
  rw [grow] at h
  rw [if_neg (by simp [empty_grow_state])] at h
  by_cases hntry : parameters.n_try > env.n_predictor
  · rw [if_pos hntry] at h; simp at h
  · rw [if_neg hntry] at h
    cases hng : env.new_growth_error with
    | some e => rw [hng] at h; simp at h
    | none =>
        rw [hng] at h
        simp only at h
        by_cases hwr : (!case_weights.isEmpty) = true ∧ parameters.sample_fraction.length > 1
        · rw [if_pos hwr] at h; simp at h
        · rw [if_neg hwr] at h
          cases hres : (if (!case_weights.isEmpty) = true then
              resample_weighted env.n_row parameters.replace parameters.sample_fraction
                case_weights oob_flag rnd.drawn
            else if parameters.sample_fraction.length > 1 then
              if env.response_wise_supported then
                .ok (resample_response_wise env.sample_keys_by_response env.n_row
                  parameters.replace parameters.sample_fraction oob_flag
                  rnd.class_draws rnd.class_perms)
              else .error .invalidArgument
            else
              .ok (resample_unweighted env.n_row parameters.replace
                parameters.sample_fraction oob_flag rnd.drawn rnd.perm)) with
          | error e => rw [hres] at h; simp at h
          | ok pair =>
              rw [hres] at h
              obtain ⟨sample_keys, oob_keys⟩ := pair
              simp only at h
              cases hgl : grow_loop env parameters fuel 1 0 0 0
                  { push_back_empty_node (empty_grow_state α) with
                    sample_keys := sample_keys,
                    start_pos := (push_back_empty_node (empty_grow_state α)).start_pos.set 0 0,
                    end_pos := (push_back_empty_node (empty_grow_state α)).end_pos.set 0
                      sample_keys.length } with
              | error e => rw [hgl] at h; simp at h
              | ok stf =>
                  rw [hgl] at h
                  simp only [Except.ok.injEq, Prod.mk.injEq] at h
                  obtain ⟨h1, h2⟩ := h
                  have hinv2 : grow_inv
                      { push_back_empty_node (empty_grow_state α) with
                        sample_keys := sample_keys,
                        start_pos := (push_back_empty_node (empty_grow_state α)).start_pos.set 0 0,
                        end_pos := (push_back_empty_node (empty_grow_state α)).end_pos.set 0
                          sample_keys.length } := by
                    refine ⟨rfl, rfl, ?_⟩
                    intro j hj
                    have : j = 0 := by
                      simpa [push_back_empty_node, empty_grow_state] using hj
                    subst this
                    exact Or.inl ⟨rfl, rfl⟩
                  have hfin := grow_loop_grow_inv env parameters fuel 1 0 0 0 _ stf hinv2
                    (by simp [push_back_empty_node, empty_grow_state]) hgl
                  rw [h1] at hfin
                  exact hfin.2.2 i hi

/-- C9 witness: the two-row demo run splits the root into children `1` and
`2`; node `0` satisfies the contiguous-children alternative. -/
theorem children_contiguous_witness :
    (demo_grown_state.left_children.getD 0 0 = 0 ∧
      demo_grown_state.right_children.getD 0 0 = 0) ∨
    (demo_grown_state.right_children.getD 0 0 =
      demo_grown_state.left_children.getD 0 0 + 1 ∧
      0 < demo_grown_state.left_children.getD 0 0) :=
  children_contiguous (demo_env 2) (demo_parameters 0) [] (demo_random 2) false 10
    demo_grown_state [] 0 (by rfl) (by decide)

/-- C5, counterexample.  The claim says two classification forests merge
whenever they have the same tree type, the same predictor count, an
`is_ordered`-preserving predictor-name bijection, and the second forest's
response values are a subset of the first's.  Here both forests share one
ordered predictor `"a"`, and `y`'s response values `[3]` are a subset of
`x`'s `[1, 2, 3]` (the `all`-check below witnesses it), yet the merge
throws `std::domain_error`: `make_key_map` iterates over the *first*
`|y.response_values|` entries of `x.response_values` and fails to find
`x`'s value `1` among `y`'s values. -/
theorem merge_subset_counterexample :
    cpp11_merge merge_x_forest merge_y_forest ["a"] ["a"] = .error .domainError ∧
    merge_y_forest.response_values.all
      (fun v => merge_x_forest.response_values.contains v) = true :=
  ⟨rfl, rfl⟩

lemma key_map_front_zero {β : Type} [DecidableEq β] (from_values to_values : List β) :
    key_map_front from_values to_values 0 = [] := rfl

lemma key_map_front_succ {β : Type} [DecidableEq β] (from_values to_values : List β)
    (t : Nat) :
    key_map_front from_values to_values (t + 1) =
      key_map_front from_values to_values t ++
        [((to_from_idx from_values to_values t).getD 0, t)] := by
  unfold key_map_front
  rw [List.range_succ, List.map_append]
  rfl

lemma key_map_front_length {β : Type} [DecidableEq β] (from_values to_values : List β)
    (t : Nat) : (key_map_front from_values to_values t).length = t := by
  simp [key_map_front]

lemma map_count_front {β : Type} [DecidableEq β] (from_values to_values : List β)
    (t k : Nat) :
    map_count (key_map_front from_values to_values t) k =
      (List.range t).countP
        (fun j => (to_from_idx from_values to_values j).getD 0 == k) := by
  unfold map_count key_map_front
  rw [← List.countP_eq_length_filter, List.countP_map]
  rfl

lemma step_ok_inv {β : Type} [DecidableEq β] (from_values to_values : List β)
    (j : Nat) (acc acc' : List (Nat × Nat))
    (hstep : make_key_map_step from_values to_values acc j = .ok acc') :
    (to_from_idx from_values to_values j).isSome = true ∧
    (to_from_idx from_values to_values j).getD 0 < from_values.length ∧
    map_count acc ((to_from_idx from_values to_values j).getD 0) = 0 ∧
    acc' = acc ++ [((to_from_idx from_values to_values j).getD 0, j)] := by
  unfold make_key_map_step at hstep
  cases hj : to_values[j]? with
  | none => rw [hj] at hstep; simp at hstep
  | some v =>
      rw [hj] at hstep
      dsimp only at hstep
      have hidx : to_from_idx from_values to_values j =
          some (from_values.findIdx (fun w => w = v)) := by
        rw [to_from_idx, hj]; rfl
      split_ifs at hstep with hge hcnt
      refine ⟨by rw [hidx]; rfl, ?_, ?_, ?_⟩
      · rw [hidx]
        simp only [Option.getD_some]
        omega
      · rw [hidx]
        simp only [Option.getD_some]
        omega
      · rw [hidx]
        simp only [Option.getD_some]
        exact (Except.ok.inj hstep).symm

lemma step_eq_ok_of {β : Type} [DecidableEq β] (from_values to_values : List β)
    (j : Nat) (acc : List (Nat × Nat))
    (hsome : (to_from_idx from_values to_values j).isSome = true)
    (hlt : (to_from_idx from_values to_values j).getD 0 < from_values.length)
    (hcnt : map_count acc ((to_from_idx from_values to_values j).getD 0) = 0) :
    make_key_map_step from_values to_values acc j =
      .ok (acc ++ [((to_from_idx from_values to_values j).getD 0, j)]) := by
  unfold make_key_map_step
  cases hj : to_values[j]? with
  | none => rw [to_from_idx, hj] at hsome; simp at hsome
  | some v =>
      dsimp only
      have hidx : (to_from_idx from_values to_values j).getD 0 =
          from_values.findIdx (fun w => w = v) := by
        rw [to_from_idx, hj]; rfl
      rw [hidx] at hlt hcnt
      rw [if_neg (by omega), if_neg (by omega), hidx]

lemma make_key_map_go_of_ok {β : Type} [DecidableEq β] (from_values to_values : List β) :
    ∀ (count j_to : Nat), j_to + count = from_values.length →
      (∀ k, k < from_values.length → key_map_step_ok from_values to_values k) →
      make_key_map_go from_values to_values count j_to
        (key_map_front from_values to_values j_to) =
      .ok (key_map_front from_values to_values from_values.length)
  | 0, j_to, hlen, _ => by
      rw [make_key_map_go, show j_to = from_values.length by omega]
  | count + 1, j_to, hlen, hok => by
      rw [make_key_map_go]
      have hj : j_to < from_values.length := by omega
      obtain ⟨hsome, hlt, hinj⟩ := hok j_to hj
      have hcnt : map_count (key_map_front from_values to_values j_to)
          ((to_from_idx from_values to_values j_to).getD 0) = 0 := by
        rw [map_count_front, List.countP_eq_zero]
        intro i hi
        rw [List.mem_range] at hi
        obtain ⟨hsomei, _, _⟩ := hok i (by omega)
        simp only [beq_iff_eq, decide_eq_true_eq]
        intro hc
        apply hinj i hi
        cases hsi : to_from_idx from_values to_values i with
        | none => rw [hsi] at hsomei; simp at hsomei
        | some xi => rw [hsi] at hc; simp at hc; rw [hc]
      rw [step_eq_ok_of from_values to_values j_to _ hsome hlt hcnt,
        ← key_map_front_succ]
      exact make_key_map_go_of_ok from_values to_values count (j_to + 1) (by omega) hok

lemma make_key_map_of_ok {β : Type} [DecidableEq β] (from_values to_values : List β)
    (h : key_map_ok from_values to_values) :
    make_key_map from_values to_values =
      .ok (key_map_front from_values to_values from_values.length) := by
  have := make_key_map_go_of_ok from_values to_values from_values.length 0
    (by omega) (fun k hk => h k hk)
  rw [key_map_front_zero] at this
  exact this

lemma make_key_map_go_ok_inv {β : Type} [DecidableEq β] (from_values to_values : List β) :
    ∀ (count j_to : Nat) (m : List (Nat × Nat)), j_to + count = from_values.length →
      make_key_map_go from_values to_values count j_to
        (key_map_front from_values to_values j_to) = .ok m →
      ∀ k, j_to ≤ k → k < from_values.length → key_map_step_ok from_values to_values k
  | 0, j_to, m, hlen, h => by intro k hk1 hk2; omega
  | count + 1, j_to, m, hlen, h => by
      rw [make_key_map_go] at h
      cases hstep : make_key_map_step from_values to_values
          (key_map_front from_values to_values j_to) j_to with
      | error e => rw [hstep] at h; simp at h
      | ok acc' =>
          rw [hstep] at h
          obtain ⟨hsome, hlt, hcnt, hacc⟩ :=
            step_ok_inv from_values to_values j_to _ acc' hstep
          have hstepok : key_map_step_ok from_values to_values j_to := by
            refine ⟨hsome, hlt, ?_⟩
            intro i hi hc
            rw [map_count_front, List.countP_eq_zero] at hcnt
            have := hcnt i (List.mem_range.mpr hi)
            simp only [beq_iff_eq, decide_eq_true_eq] at this
            rw [hc] at this
            simp at this
          rw [hacc, ← key_map_front_succ] at h
          intro k hk1 hk2
          by_cases hkj : k = j_to
          · rw [hkj]; exact hstepok
          · exact make_key_map_go_ok_inv from_values to_values count (j_to + 1) m
              (by omega) h k (by omega) hk2

lemma make_key_map_ok_inv {β : Type} [DecidableEq β] (from_values to_values : List β)
    (m : List (Nat × Nat)) (h : make_key_map from_values to_values = .ok m) :
    key_map_ok from_values to_values := by
  intro k hk
  have h' : make_key_map_go from_values to_values from_values.length 0
      (key_map_front from_values to_values 0) = .ok m := by
    rw [key_map_front_zero]; exact h
  exact make_key_map_go_ok_inv from_values to_values from_values.length 0 m
    (by omega) h' k (Nat.zero_le k) hk

lemma map_count_eq_countP (m : List (Nat × Nat)) (k : Nat) :
    map_count m k = m.countP (fun p => p.1 == k) :=
  (List.countP_eq_length_filter _ _).symm

lemma key_map_ok_inj {β : Type} [DecidableEq β] (from_values to_values : List β)
    (h : key_map_ok from_values to_values) :
    ∀ i j, i < from_values.length → j < from_values.length →
      (to_from_idx from_values to_values i).getD 0 =
        (to_from_idx from_values to_values j).getD 0 → i = j := by
  intro i j hi hj hf
  by_contra hne
  rcases Nat.lt_or_ge i j with hlt | hge
  · obtain ⟨_, _, hinj⟩ := h j hj
    obtain ⟨hsi, _, _⟩ := h i hi
    apply hinj i hlt
    cases hx : to_from_idx from_values to_values i with
    | none => rw [hx] at hsi; simp at hsi
    | some xi =>
        rw [hx] at hf
        simp only [Option.getD_some] at hf
        rw [hf]
  · have hlt : j < i := by omega
    obtain ⟨_, _, hinj⟩ := h i hi
    obtain ⟨hsj, _, _⟩ := h j hj
    apply hinj j hlt
    cases hx : to_from_idx from_values to_values j with
    | none => rw [hx] at hsj; simp at hsj
    | some xj =>
        rw [hx] at hf
        simp only [Option.getD_some] at hf
        rw [← hf]

lemma fin_coverage (n : Nat) (f : Nat → Nat) (hlt : ∀ j < n, f j < n)
    (hinj : ∀ j k, j < n → k < n → f j = f k → j = k) :
    ∀ v < n, ∃ j, j < n ∧ f j = v := by
  intro v hv
  have hsub : (Finset.range n).image f ⊆ Finset.range n := by
    intro a ha
    obtain ⟨j, hj, rfl⟩ := Finset.mem_image.mp ha
    exact Finset.mem_range.mpr (hlt j (Finset.mem_range.mp hj))
  have hcard : ((Finset.range n).image f).card = n := by
    rw [Finset.card_image_of_injOn, Finset.card_range]
    intro a ha b hb hab
    exact hinj a b (Finset.mem_range.mp ha) (Finset.mem_range.mp hb) hab
  have heq : (Finset.range n).image f = Finset.range n :=
    Finset.eq_of_subset_of_card_le hsub (by rw [hcard, Finset.card_range])
  have hv' : v ∈ (Finset.range n).image f := by
    rw [heq]; exact Finset.mem_range.mpr hv
  obtain ⟨j, hj, hfj⟩ := Finset.mem_image.mp hv'
  exact ⟨j, Finset.mem_range.mp hj, hfj⟩

lemma key_map_front_keys {β : Type} [DecidableEq β] (from_values to_values : List β)
    (t : Nat) :
    (key_map_front from_values to_values t).map Prod.fst =
      (List.range t).map (fun j => (to_from_idx from_values to_values j).getD 0) := by
  unfold key_map_front
  rw [List.map_map]
  rfl

lemma key_map_front_keys_nodup {β : Type} [DecidableEq β]
    (from_values to_values : List β) (h : key_map_ok from_values to_values) :
    ((key_map_front from_values to_values from_values.length).map Prod.fst).Nodup := by
  rw [key_map_front_keys]
  apply List.Nodup.map_on ?_ (List.nodup_range _)
  intro i hi j hj hf
  rw [List.mem_range] at hi hj
  exact key_map_ok_inj from_values to_values h i j hi hj hf

lemma key_map_front_lookup {β : Type} [DecidableEq β]
    (from_values to_values : List β) (h : key_map_ok from_values to_values)
    (j : Nat) (hj : j < from_values.length) :
    (map_lookup (key_map_front from_values to_values from_values.length) j).isSome =
      true ∧
    (map_lookup (key_map_front from_values to_values from_values.length) j).getD 0 <
      from_values.length := by
  obtain ⟨i, hi, hfi⟩ := fin_coverage from_values.length
    (fun j => (to_from_idx from_values to_values j).getD 0)
    (fun k hk => (h k hk).2.1) (key_map_ok_inj from_values to_values h) j hj
  have hmem : j ∈ (key_map_front from_values to_values from_values.length).map
      Prod.fst := by
    rw [key_map_front_keys]
    exact List.mem_map.mpr ⟨i, List.mem_range.mpr hi, hfi⟩
  have hpos : 0 < map_count (key_map_front from_values to_values from_values.length) j := by
    rw [map_count_eq_keys_count]
    exact List.count_pos_iff.mpr hmem
  have hsome : (map_lookup (key_map_front from_values to_values from_values.length)
      j).isSome = true := by
    cases hl : map_lookup (key_map_front from_values to_values from_values.length) j with
    | none => rw [← map_count_eq_zero] at hl; omega
    | some v => rfl
  refine ⟨hsome, ?_⟩
  cases hl : map_lookup (key_map_front from_values to_values from_values.length) j with
  | none => rw [hl] at hsome; simp at hsome
  | some v =>
      have hmem2 := map_lookup_mem _ _ _ hl
      unfold key_map_front at hmem2
      obtain ⟨i2, hi2, heq2⟩ := List.mem_map.mp hmem2
      rw [List.mem_range] at hi2
      have : v = i2 := by
        have := congrArg Prod.snd heq2
        simpa using this.symm
      simpa [this] using hi2

lemma transform_split_keys_ok_of (n : Nat) (m : List (Nat × Nat)) (keys : List Nat)
    (hlen : m.length = n)
    (hall : ∀ j < n, (map_lookup m j).isSome = true ∧ (map_lookup m j).getD 0 < n)
    (hnodup : (m.map Prod.fst).Nodup) :
    transform_split_keys n m keys =
      .ok (keys.map (fun key => (map_lookup m key).getD 0)) := by
  unfold transform_split_keys
  rw [if_neg (by omega)]
  have hany : ((List.range n).any
      (fun j => map_count m j ≠ 1 ∨ (map_lookup m j).getD 0 ≥ n)) = false := by
    simp only [List.any_eq_false, List.mem_range, decide_eq_true_eq]
    intro j hj
    push_neg
    obtain ⟨hsome, hlt⟩ := hall j hj
    exact ⟨(map_count_one_iff m j hnodup).mpr hsome, hlt⟩
  rw [if_neg (by rw [hany]; exact Bool.false_ne_true)]

lemma merge_map_trees_ok (f : TreeMergeModel → Except ErrKind TreeMergeModel)
    (g : TreeMergeModel → TreeMergeModel) :
    ∀ trees : List TreeMergeModel, (∀ t ∈ trees, f t = .ok (g t)) →
      merge_map_trees f trees = .ok (trees.map g)
  | [], _ => rfl
  | tree :: rest, h => by
      rw [merge_map_trees, h tree (by simp),
        merge_map_trees_ok f g rest (fun t ht => h t (by simp [ht]))]
      rfl

/-- C5, amended.  Merging succeeds iff: same tree type, same `n_predictor`,
every one of the first forest's predictor names is found (injectively) among
the second's — equivalently the predictor names are a bijection — the
induced predictor map preserves `is_ordered`, and, for classification, the
first `|y.response_values|` entries of the first forest's response values
are exactly the second forest's response values up to order (`key_map_ok`).
A merely-subset response relationship is rejected (see the counterexample).
On success the second forest's trees have their split keys rewritten through
the predictor map and (classification) their leaf response keys rewritten
via `transform_response_keys`; on the listed failures the merge throws. -/
theorem merge_mergeable_amended (x y : ForestMergeModel)
    (x_predictors y_predictors : List String)
    (hxl : x_predictors.length = x.n_predictor)
    (hyl : y_predictors.length = y.n_predictor) :
    (x.tree_type ≠ y.tree_type →
      cpp11_merge x y x_predictors y_predictors = .error .invalidArgument) ∧
    (x.tree_type = y.tree_type → x.n_predictor ≠ y.n_predictor →
      cpp11_merge x y x_predictors y_predictors = .error .invalidArgument) ∧
    (x.tree_type = y.tree_type → x.n_predictor = y.n_predictor →
      ¬ key_map_ok y_predictors x_predictors →
      ∃ e, cpp11_merge x y x_predictors y_predictors = .error e) ∧
    (x.tree_type = y.tree_type → x.n_predictor = y.n_predictor →
      key_map_ok y_predictors x_predictors →
      (∃ p ∈ key_map_front y_predictors x_predictors y_predictors.length,
        y.is_ordered.getD p.1 false ≠ x.is_ordered.getD p.2 false) →
      cpp11_merge x y x_predictors y_predictors = .error .invalidArgument) ∧
    (x.tree_type = .classification → y.tree_type = .classification →
      x.n_predictor = y.n_predictor →
      key_map_ok y_predictors x_predictors →
      (∀ p ∈ key_map_front y_predictors x_predictors y_predictors.length,
        y.is_ordered.getD p.1 false = x.is_ordered.getD p.2 false) →
      ((∃ f, cpp11_merge x y x_predictors y_predictors = .ok f) ↔
          key_map_ok y.response_values x.response_values) ∧
      (key_map_ok y.response_values x.response_values →
        cpp11_merge x y x_predictors y_predictors = .ok
          { tree_type := .classification, n_predictor := x.n_predictor,
            is_ordered := x.is_ordered, response_values := x.response_values,
            trees := x.trees ++ y.trees.map (fun tree =>
              transform_response_keys
                (key_map_front y.response_values x.response_values
                  y.response_values.length)
                { tree with split_keys := tree.split_keys.map (fun key =>
                    (map_lookup (key_map_front y_predictors x_predictors
                      y_predictors.length) key).getD 0) }) })) ∧
    (x.tree_type = .regression → y.tree_type = .regression →
      x.n_predictor = y.n_predictor →
      key_map_ok y_predictors x_predictors →
      (∀ p ∈ key_map_front y_predictors x_predictors y_predictors.length,
        y.is_ordered.getD p.1 false = x.is_ordered.getD p.2 false) →
      cpp11_merge x y x_predictors y_predictors = .ok
        { tree_type := .regression, n_predictor := x.n_predictor,
          is_ordered := x.is_ordered, response_values := x.response_values,
          trees := x.trees ++ y.trees.map (fun tree =>
            { tree with split_keys := tree.split_keys.map (fun key =>
                (map_lookup (key_map_front y_predictors x_predictors
                  y_predictors.length) key).getD 0) }) }) := by
  have hLen : ∀ (hnp : x.n_predictor = y.n_predictor),
      y_predictors.length = x.n_predictor := by
    intro hnp; rw [hyl, hnp]
  have htrans : ∀ (hnp : x.n_predictor = y.n_predictor),
      key_map_ok y_predictors x_predictors →
      ∀ keys : List Nat,
        transform_split_keys x.n_predictor
          (key_map_front y_predictors x_predictors y_predictors.length) keys =
        .ok (keys.map (fun key =>
          (map_lookup (key_map_front y_predictors x_predictors
            y_predictors.length) key).getD 0)) := by
    intro hnp hpok keys
    apply transform_split_keys_ok_of
    · rw [key_map_front_length, hLen hnp]
    · intro j hj
      have hb := key_map_front_lookup y_predictors x_predictors hpok j
        (by rw [hLen hnp]; omega)
      refine ⟨hb.1, ?_⟩
      rw [← hLen hnp]
      exact hb.2
    · exact key_map_front_keys_nodup y_predictors x_predictors hpok
  have hanyf : ∀ (hord : ∀ p ∈ key_map_front y_predictors x_predictors
        y_predictors.length,
        y.is_ordered.getD p.1 false = x.is_ordered.getD p.2 false),
      ((key_map_front y_predictors x_predictors y_predictors.length).any
        (fun p => y.is_ordered.getD p.1 false ≠ x.is_ordered.getD p.2 false)) =
        false := by
    intro hord
    rw [List.any_eq_false]
    intro p hp
    simp only [decide_eq_true_eq]
    exact fun hc => hc (hord p hp)
  have hsuccC : ∀ (hx : x.tree_type = .classification)
      (hy : y.tree_type = .classification)
      (hnp : x.n_predictor = y.n_predictor)
      (hpok : key_map_ok y_predictors x_predictors)
      (hord : ∀ p ∈ key_map_front y_predictors x_predictors y_predictors.length,
        y.is_ordered.getD p.1 false = x.is_ordered.getD p.2 false)
      (hrok : key_map_ok y.response_values x.response_values),
      cpp11_merge x y x_predictors y_predictors = .ok
        { tree_type := .classification, n_predictor := x.n_predictor,
          is_ordered := x.is_ordered, response_values := x.response_values,
          trees := x.trees ++ y.trees.map (fun tree =>
            transform_response_keys
              (key_map_front y.response_values x.response_values
                y.response_values.length)
              { tree with split_keys := tree.split_keys.map (fun key =>
                  (map_lookup (key_map_front y_predictors x_predictors
                    y_predictors.length) key).getD 0) }) } := by
    intro hx hy hnp hpok hord hrok
    unfold cpp11_merge
    rw [if_neg (by rw [hx, hy]; simp), if_neg (by simp [hnp]),
      make_key_map_of_ok y_predictors x_predictors hpok]
    dsimp only
    rw [if_neg (by rw [hanyf hord]; exact Bool.false_ne_true), hx]
    dsimp only
    rw [make_key_map_of_ok y.response_values x.response_values hrok]
    dsimp only
    rw [merge_map_trees_ok _ (fun tree =>
        transform_response_keys
          (key_map_front y.response_values x.response_values
            y.response_values.length)
          { tree with split_keys := tree.split_keys.map (fun key =>
              (map_lookup (key_map_front y_predictors x_predictors
                y_predictors.length) key).getD 0) }) y.trees ?_]
    intro t ht
    unfold merge_transform_tree
    rw [htrans hnp hpok t.split_keys]
  refine ⟨?_, ?_, ?_, ?_, ?_, ?_⟩
  · intro hne
    unfold cpp11_merge
    rw [if_pos hne]
  · intro hty hnp
    unfold cpp11_merge
    rw [if_neg (by simp [hty]), if_pos hnp]
  · intro hty hnp hnok
    cases hk : make_key_map y_predictors x_predictors with
    | error e =>
        refine ⟨e, ?_⟩
        unfold cpp11_merge
        rw [if_neg (by simp [hty]), if_neg (by simp [hnp]), hk]
    | ok km => exact absurd (make_key_map_ok_inv _ _ km hk) hnok
  · intro hty hnp hpok hbad
    unfold cpp11_merge
    rw [if_neg (by simp [hty]), if_neg (by simp [hnp]),
      make_key_map_of_ok y_predictors x_predictors hpok]
    dsimp only
    have hany : ((key_map_front y_predictors x_predictors y_predictors.length).any
        (fun p => y.is_ordered.getD p.1 false ≠ x.is_ordered.getD p.2 false)) =
        true := by
      rw [List.any_eq_true]
      obtain ⟨p, hp, hpne⟩ := hbad
      exact ⟨p, hp, by simpa using hpne⟩
    rw [if_pos hany]
  · intro hx hy hnp hpok hord
    refine ⟨⟨?_, ?_⟩, hsuccC hx hy hnp hpok hord⟩
    · rintro ⟨f, hf⟩
      unfold cpp11_merge at hf
      rw [if_neg (by rw [hx, hy]; simp), if_neg (by simp [hnp]),
        make_key_map_of_ok y_predictors x_predictors hpok] at hf
      dsimp only at hf
      rw [if_neg (by rw [hanyf hord]; exact Bool.false_ne_true), hx] at hf
      dsimp only at hf
      cases hk : make_key_map y.response_values x.response_values with
      | error e => rw [hk] at hf; simp at hf
      | ok km => exact make_key_map_ok_inv _ _ km hk
    · intro hrok
      exact ⟨_, hsuccC hx hy hnp hpok hord hrok⟩
  · intro hx hy hnp hpok hord
    unfold cpp11_merge
    rw [if_neg (by rw [hx, hy]; simp), if_neg (by simp [hnp]),
      make_key_map_of_ok y_predictors x_predictors hpok]
    dsimp only
    rw [if_neg (by rw [hanyf hord]; exact Bool.false_ne_true), hx]
    dsimp only
    rw [merge_map_trees_ok _ (fun tree =>
        { tree with split_keys := tree.split_keys.map (fun key =>
            (map_lookup (key_map_front y_predictors x_predictors
              y_predictors.length) key).getD 0) }) y.trees ?_]
    intro t ht
    rw [htrans hnp hpok t.split_keys]

/-- C5 witness for the amended theorem: two compatible classification
forests with predictor orders `[a, b]` and `[b, a]` and response orders
`[1, 2]` and `[2, 1]` merge successfully; the second tree's split keys,
response weights and leaf response keys are remapped. -/
theorem merge_mergeable_amended_witness :
    cpp11_merge merge_xw_forest merge_yw_forest ["a", "b"] ["b", "a"] =
      .ok ⟨.classification, 2, [true, false], [1, 2],
        [⟨[0], [1, 1], [(0, [0, 1])], [(0, 0)]⟩,
         ⟨[1, 0], [7, 5], [(0, [1, 0])], [(0, 0)]⟩]⟩ :=
  ((merge_mergeable_amended merge_xw_forest merge_yw_forest ["a", "b"] ["b", "a"]
      rfl rfl).2.2.2.2.1 rfl rfl rfl
      (by unfold key_map_ok key_map_step_ok; decide)
      (by decide)).2
    (by unfold key_map_ok key_map_step_ok; decide)

end Literanger
